import Mathlib

set_option autoImplicit false
set_option maxRecDepth 8000

/-! Verification of the interleave package (src/interleave/__init__.py).

The package merges several lazily produced sequences into one: each source
iterator is driven by its own worker thread, every produced value (or captured
error) is wrapped in a Result and pushed into a FunnelQueue, and the
coordinator generator pulls Results and yields them to the consumer.

We embed the code shallowly:
  - Result mirrors the Result class (value / exc_info pair);
  - FunnelQueue mirrors the FunnelQueue class: the FIFO of items, the
    producer_qty counter, and the done sentinel.  Two ghost counters
    (sentinelCnt, eoiPulledCnt) count how often the completion sentinel was
    enqueued and how often get returned the end-of-input condition; they do
    not influence behaviour;
  - the concurrent execution of interleave is a small-step transition system
    Sys: one Worker per source iterator (the process closure), a coordinator
    micro-state CoState for the generator body, and the shared done_flag.
    Each transition is one atomic access to shared state; schedules are
    arbitrary lists of actions (Act), executed by stepFn / run.

A source iterator is a list of Steps: each next() call either yields a value
or raises; an exhausted list means next() raises StopIteration. -/

namespace Interleave

/-- One advance of a source iterator: next() yields a value or raises an
error.  Running off the end of the list models StopIteration. -/
inductive Step (T E : Type) where
  | yieldv : T → Step T E
  | raise : E → Step T E
  deriving DecidableEq, Repr

/-- Embedding of the Result class: an optional held value and an optional
captured exception (exc_info).  The Python constructor defaults both to
None. -/
structure Result (T E : Type) where
  value : Option T
  exc_info : Option E
  deriving DecidableEq, Repr

/-- Result.success: true when there is no captured exception. -/
def Result.success {T E : Type} (r : Result T E) : Bool :=
  r.exc_info.isNone

/-- Result.get: return the held value if no exception was captured, else
re-raise the captured exception (modelled with Except).  The Python cast is
the identity, so the ok branch returns the stored Optional value as is. -/
def Result.get {T E : Type} (r : Result T E) : Except E (Option T) :=
  match r.exc_info with
  | none => Except.ok r.value
  | some e => Except.error e

/-- Errors the module itself raises (as opposed to captured producer
errors): Result.for_exc raises ValueError when no exception is being
handled. -/
inductive PyErr where
  | valueError
  deriving DecidableEq, Repr

/-- Result.for_exc: build a Result from the exception currently being
handled.  sys.exc_info() is modelled as an Option argument: none when no
exception is being handled (in which case ValueError is raised), some e for
an active exception e. -/
def Result.for_exc {T E : Type} (excInfo : Option E) : Except PyErr (Result T E) :=
  match excInfo with
  | none => Except.error PyErr.valueError
  | some e => Except.ok { value := none, exc_info := some e }

/-- An entry of the FunnelQueue FIFO: a pushed item or the done sentinel
(the queue itself holds plain objects; get distinguishes the sentinel by
identity). -/
inductive FItem (T : Type) where
  | item : T → FItem T
  | sentinel
  deriving DecidableEq, Repr

/-- Embedding of the FunnelQueue class.  queue is the FIFO (a bounded
queue.Queue when cap is some c, an unbounded SimpleQueue when cap is none),
producer_qty the reference count of registered producers.  sentinelCnt and
eoiPulledCnt are ghost counters used only in specifications. -/
structure FunnelQueue (T : Type) where
  queue : List (FItem T)
  producer_qty : Int
  cap : Option Nat
  sentinelCnt : Nat
  eoiPulledCnt : Nat
  deriving DecidableEq, Repr

/-- FunnelQueue.__init__ with the given queue_size. -/
def FunnelQueue.init (T : Type) (queue_size : Option Nat) : FunnelQueue T :=
  { queue := [], producer_qty := 0, cap := queue_size, sentinelCnt := 0,
    eoiPulledCnt := 0 }

/-- Whether a put on the underlying queue can proceed without blocking:
always for SimpleQueue, and only below capacity for a bounded Queue. -/
def FunnelQueue.capOk {T : Type} (q : FunnelQueue T) : Bool :=
  match q.cap with
  | none => true
  | some c => decide (q.queue.length < c)

/-- FunnelQueue.putting, first half: increment producer_qty under the lock.
(The context manager it returns is modelled by the closeOne transition run
when the worker terminates.) -/
def FunnelQueue.putting {T : Type} (q : FunnelQueue T) : FunnelQueue T :=
  { q with producer_qty := q.producer_qty + 1 }

/-- FunnelQueue.put: enqueue an item (the blocking condition capOk is
checked by the callers of this state transformer). -/
def FunnelQueue.put {T : Type} (q : FunnelQueue T) (v : T) : FunnelQueue T :=
  { q with queue := q.queue ++ [FItem.item v] }

/-- The body of FunnelQueue._close_one run on worker exit, under the lock:
decrement producer_qty and, exactly when it becomes 0, enqueue the done
sentinel. -/
def FunnelQueue.closeOne {T : Type} (q : FunnelQueue T) : FunnelQueue T :=
  if q.producer_qty - 1 = 0 then
    { q with producer_qty := q.producer_qty - 1,
             queue := q.queue ++ [FItem.sentinel],
             sentinelCnt := q.sentinelCnt + 1 }
  else { q with producer_qty := q.producer_qty - 1 }

/-- Whether closeOne can run without blocking: the sentinel put inside
_close_one can block on a full bounded queue exactly when the decrement is
about to hit 0. -/
def FunnelQueue.relOk {T : Type} (q : FunnelQueue T) : Bool :=
  if q.producer_qty - 1 = 0 then q.capOk else true

/-- FunnelQueue.get: blocks on an empty queue (modelled as none, i.e. the
action is not enabled); otherwise pops the head.  A popped sentinel raises
EndOfInputError, modelled as payload none; a popped item is payload some. -/
def FunnelQueue.get {T : Type} (q : FunnelQueue T) : Option (Option T × FunnelQueue T) :=
  match q.queue with
  | [] => none
  | FItem.sentinel :: rest =>
      some (none, { q with queue := rest, eoiPulledCnt := q.eoiPulledCnt + 1 })
  | FItem.item v :: rest => some (some v, { q with queue := rest })

/-- Modelled from the spec: the error policy argument of interleave.  The
on_error parameter and the FINISH_CURRENT policy are referenced by the
repository's test suite (onerror=FINISH_CURRENT in test_interleave.py) but
their implementation is absent from src/src/interleave/__init__.py, whose
interleave only has the CANCEL behaviour; FINISH_CURRENT is modelled from
the spec. -/
inductive OnError where
  | CANCEL
  | FINISH_CURRENT
  deriving DecidableEq, Repr

/-- How a worker's process loop terminated. -/
inductive EK where
  | exhausted
  | raisedExit
  | stopExit
  deriving DecidableEq, Repr

/-- Control state of one worker (the process closure for one iterator):
unsubmitted (its pool.submit not executed yet), pending (submitted, not yet
picked up by a pool thread), checking (inside the loop, about to test
done_flag), advancing (past the flag test, about to call next), done
(returned, registration released), cancelled (future cancelled before it
ever started). -/
inductive WState (T E : Type) where
  | unsubmitted : List (Step T E) → WState T E
  | pending : List (Step T E) → WState T E
  | checking : List (Step T E) → WState T E
  | advancing : List (Step T E) → WState T E
  | done
  | cancelled
  deriving DecidableEq, Repr

/-- One worker together with ghost counters: how often its registration
(producer_qty increment) ran, how often its release (decrement) ran, how
many failure Results it pushed, and how its loop exited. -/
structure Worker (T E : Type) where
  st : WState T E
  regCnt : Nat
  relCnt : Nat
  failPushCnt : Nat
  exitKind : Option EK
  deriving DecidableEq, Repr

/-- Micro-state of the coordinator (the body of the interleave generator):
submitting k (in the futures list comprehension, k iterators submitted so
far), looping (about to call funnel.get()), sawFailure e (get returned a
failure Result, done_flag not yet set), cancelling e i (cancel loop at
future i), raising e (about to re-raise e at the yield), failDraining e
(error propagating through the ThreadPoolExecutor exit, which waits for
workers), draining (EndOfInputError seen, executor exit waiting), closing
(consumer closed the generator early, executor exit waiting), finished
(returned normally), failed e (the error e reached the consumer),
closedDone (early close finished). -/
inductive CoState (E : Type) where
  | submitting : Nat → CoState E
  | looping
  | sawFailure : E → CoState E
  | cancelling : E → Nat → CoState E
  | raising : E → CoState E
  | failDraining : E → CoState E
  | draining
  | closing
  | finished
  | failed : E → CoState E
  | closedDone
  deriving DecidableEq, Repr

/-- The whole shared state of one interleave call.  recorded is the
coordinator-local first recorded failure of the FINISH_CURRENT policy.
firstFail, eoiSeen and surfaceCnt are ghost observers: the first failure
Result the coordinator ever pulled, whether the end-of-input condition was
pulled, and how many errors were surfaced (re-raised) to the consumer. -/
structure Sys (T E : Type) where
  pol : OnError
  workers : List (Worker T E)
  funnel : FunnelQueue (Result T E)
  flag : Bool
  co : CoState E
  recorded : Option E
  firstFail : Option E
  eoiSeen : Bool
  surfaceCnt : Nat
  outputs : List (Option T)
  deriving DecidableEq, Repr

/-- The initial state of interleave(iterators, queue_sizeted, on_error):
fresh funnel, done_flag unset, no worker submitted. -/
def initSys {T E : Type} (iters : List (List (Step T E))) (queue_size : Option Nat)
    (pol : OnError) : Sys T E :=
  { pol := pol,
    workers := iters.map fun it =>
      { st := WState.unsubmitted it, regCnt := 0, relCnt := 0,
        failPushCnt := 0, exitKind := none },
    funnel := FunnelQueue.init (Result T E) queue_size,
    flag := false, co := CoState.submitting 0, recorded := none,
    firstFail := none, eoiSeen := false, surfaceCnt := 0, outputs := [] }

/-- Keep the first recorded value: set-once semantics of the first-failure
slots. -/
def keepFirst {E : Type} (o : Option E) (e : E) : Option E :=
  match o with
  | some x => some x
  | none => some e

/-- Modelled from the spec: which terminal state the executor exit reaches
from the draining state.  Under FINISH_CURRENT (absent from src) a recorded
failure is surfaced after EndOfInput; otherwise the generator completes
normally. -/
def drainTarget {E : Type} (pol : OnError) (recorded : Option E) : CoState E :=
  match pol, recorded with
  | OnError.FINISH_CURRENT, some e => CoState.failed e
  | _, _ => CoState.finished

/-- Modelled from the spec: the coordinator's reaction to a pulled failure
Result under FINISH_CURRENT (absent from src): do not set done_flag, do not
cancel anybody, record the failure only if it is the first one, keep
looping. -/
def finishReact {T E : Type} (s : Sys T E) (f : FunnelQueue (Result T E)) (e : E) : Sys T E :=
  { s with funnel := f, recorded := keepFirst s.recorded e,
           firstFail := keepFirst s.firstFail e }

/-- Whether a worker's thread is finished or will never run (a future that
completed, or was cancelled before starting).  ThreadPoolExecutor shutdown
waits until this holds for every worker; note that pending workers still get
run by the pool during shutdown. -/
def wTerminalB {T E : Type} : WState T E → Bool
  | WState.done => true
  | WState.cancelled => true
  | _ => false

/-- All workers terminated: the condition for the executor exit (shutdown
with wait) to return. -/
def allStopped {T E : Type} (s : Sys T E) : Bool :=
  s.workers.all fun w => wTerminalB w.st

/-- The scheduler's alphabet: which atomic step of which thread runs next.
submit: the coordinator runs funnel.putting() and pool.submit for the next
iterator (or finishes the list); coGet: funnel.get(); coSetFlag:
done_flag.set() after a failure; coCancel: f.cancel() on the next future;
coRaise: the re-raise leaves the generator body; coClose: the consumer
closes the generator; drainEnd: the executor exit observes that every
worker terminated and returns; wStart i: a pool thread picks up worker i;
wCheck i: worker i tests done_flag; wAdvance i: worker i runs next() and
pushes the outcome. -/
inductive Act where
  | submit
  | coGet
  | coSetFlag
  | coCancel
  | coRaise
  | coClose
  | drainEnd
  | wStart : Nat → Act
  | wCheck : Nat → Act
  | wAdvance : Nat → Act
  deriving DecidableEq, Repr

/-- Coordinator step for the futures list comprehension: for each iterator,
funnel.putting() runs on the coordinator's thread (registration), then the
worker is handed to the pool (pending).  When the iterators are exhausted:
with no futures the generator returns at once, otherwise it enters the pull
loop. -/
def stepSubmit {T E : Type} (s : Sys T E) : Option (Sys T E) :=
  match s.co with
  | CoState.submitting k =>
    match s.workers[k]? with
    | some w =>
      match w.st with
      | WState.unsubmitted its =>
          some { s with
            workers := s.workers.set k
              { w with st := WState.pending its, regCnt := w.regCnt + 1 },
            funnel := s.funnel.putting,
            co := CoState.submitting (k + 1) }
      | _ => none
    | none =>
        some { s with co := if s.workers.isEmpty then CoState.finished
                            else CoState.looping }
  | _ => none

/-- Coordinator step r = funnel.get() and the immediate reaction to r:
EndOfInputError breaks out of the loop into the executor exit; a success
Result is yielded to the consumer (yield r.get()); a failure Result is
handled by the active policy: CANCEL (the src behaviour) moves towards
done_flag.set(), FINISH_CURRENT (spec-modelled) records and keeps
looping. -/
def stepCoGet {T E : Type} (s : Sys T E) : Option (Sys T E) :=
  match s.co with
  | CoState.looping =>
    match s.funnel.get with
    | none => none
    | some (none, f) =>
        some { s with funnel := f, eoiSeen := true, co := CoState.draining }
    | some (some r, f) =>
      match r.exc_info with
      | none => some { s with funnel := f, outputs := s.outputs ++ [r.value] }
      | some e =>
        match s.pol with
        | OnError.CANCEL =>
            some { s with funnel := f, co := CoState.sawFailure e,
                          firstFail := keepFirst s.firstFail e }
        | OnError.FINISH_CURRENT => some (finishReact { s with co := CoState.looping } f e)
  | _ => none

/-- Coordinator step done_flag.set() after pulling a failure (CANCEL
path). -/
def stepCoSetFlag {T E : Type} (s : Sys T E) : Option (Sys T E) :=
  match s.co with
  | CoState.sawFailure e => some { s with flag := true, co := CoState.cancelling e 0 }
  | _ => none

/-- Coordinator step f.cancel() on future i: a pending future is cancelled
and will never run; a started or finished future is unaffected (cancel
returns False).  Past the end of the list the loop falls through to the
re-raise. -/
def stepCoCancel {T E : Type} (s : Sys T E) : Option (Sys T E) :=
  match s.co with
  | CoState.cancelling e i =>
    match s.workers[i]? with
    | some w =>
      match w.st with
      | WState.pending _ =>
          some { s with
            workers := s.workers.set i { w with st := WState.cancelled },
            co := CoState.cancelling e (i + 1) }
      | _ => some { s with co := CoState.cancelling e (i + 1) }
    | none => some { s with co := CoState.raising e }
  | _ => none

/-- Coordinator step: the exception raised by r.get() at the yield leaves
the generator body and starts propagating through the executor exit, which
first waits for the workers. -/
def stepCoRaise {T E : Type} (s : Sys T E) : Option (Sys T E) :=
  match s.co with
  | CoState.raising e => some { s with co := CoState.failDraining e }
  | _ => none

/-- Consumer step: the merged sequence is closed or abandoned while
suspended at a yield; GeneratorExit unwinds the generator body into the
executor exit.  Note that done_flag is not touched and no future is
cancelled. -/
def stepCoClose {T E : Type} (s : Sys T E) : Option (Sys T E) :=
  match s.co with
  | CoState.looping => some { s with co := CoState.closing }
  | _ => none

/-- The executor exit (shutdown with wait) observes that every worker
terminated and returns, completing the generator: normal exhaustion ends in
finished (or, spec-modelled, surfaces a recorded FINISH_CURRENT failure),
the CANCEL re-raise reaches the consumer (failed), an early close ends in
closedDone. -/
def stepDrainEnd {T E : Type} (s : Sys T E) : Option (Sys T E) :=
  if allStopped s then
    match s.co with
    | CoState.draining =>
        match drainTarget s.pol s.recorded with
        | CoState.failed e =>
            some { s with co := CoState.failed e, surfaceCnt := s.surfaceCnt + 1 }
        | c => some { s with co := c }
    | CoState.failDraining e =>
        some { s with co := CoState.failed e, surfaceCnt := s.surfaceCnt + 1 }
    | CoState.closing => some { s with co := CoState.closedDone }
    | _ => none
  else none

/-- Worker step: a pool thread picks up pending worker i and enters the
process closure (the with ctx block). -/
def stepWStart {T E : Type} (s : Sys T E) (i : Nat) : Option (Sys T E) :=
  match s.workers[i]? with
  | some w =>
    match w.st with
    | WState.pending its =>
        some { s with workers := s.workers.set i { w with st := WState.checking its } }
    | _ => none
  | none => none

/-- Worker step: the while condition tests done_flag.  If set, the loop
exits without another advance and the with ctx exit releases the
registration (closeOne); otherwise the worker proceeds to next(). -/
def stepWCheck {T E : Type} (s : Sys T E) (i : Nat) : Option (Sys T E) :=
  match s.workers[i]? with
  | some w =>
    match w.st with
    | WState.checking its =>
      if s.flag then
        if s.funnel.relOk then
          some { s with
            workers := s.workers.set i
              { w with st := WState.done, relCnt := w.relCnt + 1,
                       exitKind := some EK.stopExit },
            funnel := s.funnel.closeOne }
        else none
      else
        some { s with workers := s.workers.set i { w with st := WState.advancing its } }
    | _ => none
  | none => none

/-- Worker step: x = next(it) and the reaction to it, the heart of the
process closure.  StopIteration: return, pushing nothing, and release the
registration.  An error e: push Result.for_exc() (a failure Result holding
e) and return, releasing the registration.  A value x: push Result(x) and
go back to the flag test. -/
def stepWAdvance {T E : Type} (s : Sys T E) (i : Nat) : Option (Sys T E) :=
  match s.workers[i]? with
  | some w =>
    match w.st with
    | WState.advancing its =>
      match its with
      | [] =>
        if s.funnel.relOk then
          some { s with
            workers := s.workers.set i
              { w with st := WState.done, relCnt := w.relCnt + 1,
                       exitKind := some EK.exhausted },
            funnel := s.funnel.closeOne }
        else none
      | Step.yieldv v :: rest =>
        if s.funnel.capOk then
          some { s with
            workers := s.workers.set i { w with st := WState.checking rest },
            funnel := s.funnel.put { value := some v, exc_info := none } }
        else none
      | Step.raise e :: _ =>
        if s.funnel.capOk && (s.funnel.put { value := none, exc_info := some e }).relOk then
          some { s with
            workers := s.workers.set i
              { w with st := WState.done, relCnt := w.relCnt + 1,
                       failPushCnt := w.failPushCnt + 1,
                       exitKind := some EK.raisedExit },
            funnel := (s.funnel.put { value := none, exc_info := some e }).closeOne }
        else none
    | _ => none
  | none => none

/-- One atomic step of the whole system under schedule action a; none when
the action is not enabled (the thread is blocked or past that point). -/
def stepFn {T E : Type} (s : Sys T E) (a : Act) : Option (Sys T E) :=
  match a with
  | Act.submit => stepSubmit s
  | Act.coGet => stepCoGet s
  | Act.coSetFlag => stepCoSetFlag s
  | Act.coCancel => stepCoCancel s
  | Act.coRaise => stepCoRaise s
  | Act.coClose => stepCoClose s
  | Act.drainEnd => stepDrainEnd s
  | Act.wStart i => stepWStart s i
  | Act.wCheck i => stepWCheck s i
  | Act.wAdvance i => stepWAdvance s i

/-- Run a schedule: execute the actions in order; none if any action is not
enabled at its turn. -/
def run {T E : Type} (s : Sys T E) : List Act → Option (Sys T E)
  | [] => some s
  | a :: as =>
    match stepFn s a with
    | some s' => run s' as
    | none => none

/-- Dummy state used to extract run results in closed statements. -/
def dfltSys : Sys Nat Nat := initSys [] none OnError.CANCEL

/-- Dummy worker used to extract list entries in closed statements. -/
def dfltW : Worker Nat Nat :=
  { st := WState.done, regCnt := 0, relCnt := 0, failPushCnt := 0, exitKind := none }

/-- Input of the registration race: an empty first iterator and a second
iterator producing one value. -/
def raceIters : List (List (Step Nat Nat)) := [[], [Step.yieldv 42]]

/-- Schedule prefix of the registration race: while the coordinator is still
inside the futures list comprehension (only iterator 0 submitted), worker 0
already runs to completion, drops producer_qty from 1 to 0 and enqueues the
done sentinel - before worker 1 was ever registered. -/
def racePre : List Act := [Act.submit, Act.wStart 0, Act.wCheck 0, Act.wAdvance 0]

/-- Full schedule of the registration race: after the premature sentinel the
coordinator finishes submitting, pulls EndOfInput first and terminates with
no outputs, while worker 1 still runs, pushes its value into the abandoned
queue and enqueues a second sentinel. -/
def raceTr : List Act :=
  racePre ++ [Act.submit, Act.submit, Act.coGet, Act.wStart 1, Act.wCheck 1,
    Act.wAdvance 1, Act.wCheck 1, Act.wAdvance 1, Act.drainEnd]

/-- State of the race run just after worker 0 finished. -/
def raceMid : Sys Nat Nat :=
  (run (initSys raceIters none OnError.CANCEL) racePre).getD dfltSys

/-- Final state of the race run. -/
def raceFinal : Sys Nat Nat :=
  (run (initSys raceIters none OnError.CANCEL) raceTr).getD dfltSys

/-- Input of the cancellation run: iterator 0 raises 7 on its first advance,
iterator 1 would produce one value. -/
def cancelIters : List (List (Step Nat Nat)) := [[Step.raise 7], [Step.yieldv 1]]

/-- Schedule of the cancellation run: worker 0 raises before worker 1 is
ever picked up by the pool; the coordinator pulls the failure, sets
done_flag, cancels future 1 while it is still pending, re-raises, and the
executor drain completes. -/
def cancelTr : List Act :=
  [Act.submit, Act.submit, Act.submit, Act.wStart 0, Act.wCheck 0, Act.wAdvance 0,
   Act.coGet, Act.coSetFlag, Act.coCancel, Act.coCancel, Act.coCancel,
   Act.coRaise, Act.drainEnd]

/-- Final state of the cancellation run. -/
def cancelFinal : Sys Nat Nat :=
  (run (initSys cancelIters none OnError.CANCEL) cancelTr).getD dfltSys

/-- Input of the early-close run: one iterator producing two values. -/
def closeIters : List (List (Step Nat Nat)) := [[Step.yieldv 5, Step.yieldv 6]]

/-- Schedule prefix of the early-close run: the consumer takes the first
value and then closes the merged sequence. -/
def closePre : List Act :=
  [Act.submit, Act.submit, Act.wStart 0, Act.wCheck 0, Act.wAdvance 0,
   Act.coGet, Act.coClose]

/-- Full schedule of the early-close run: after the close the worker keeps
advancing to its natural end before the executor drain completes. -/
def closeTr : List Act :=
  closePre ++ [Act.wCheck 0, Act.wAdvance 0, Act.wCheck 0, Act.wAdvance 0,
    Act.drainEnd]

/-- State of the early-close run just after the consumer closed the merged
sequence. -/
def closeMid : Sys Nat Nat :=
  (run (initSys closeIters none OnError.CANCEL) closePre).getD dfltSys

/-- Final state of the early-close run. -/
def closeFinal : Sys Nat Nat :=
  (run (initSys closeIters none OnError.CANCEL) closeTr).getD dfltSys

/-- Input of the FINISH_CURRENT run: iterator 0 raises 3 at once, iterator 1
produces one value afterwards. -/
def finishIters : List (List (Step Nat Nat)) := [[Step.raise 3], [Step.yieldv 8]]

/-- Schedule of the FINISH_CURRENT run: the failure 3 is pulled first and
recorded, worker 1 still runs to completion and its value is still yielded,
then EndOfInput arrives and the recorded failure is surfaced. -/
def finishTr : List Act :=
  [Act.submit, Act.submit, Act.submit, Act.wStart 0, Act.wCheck 0, Act.wAdvance 0,
   Act.coGet, Act.wStart 1, Act.wCheck 1, Act.wAdvance 1, Act.coGet,
   Act.wCheck 1, Act.wAdvance 1, Act.coGet, Act.drainEnd]

/-- Final state of the FINISH_CURRENT run. -/
def finishFinal : Sys Nat Nat :=
  (run (initSys finishIters none OnError.FINISH_CURRENT) finishTr).getD dfltSys

/-- Schedule prefix leaving worker 0 about to advance on its first value. -/
def c7Pre : List Act := [Act.submit, Act.submit, Act.wStart 0, Act.wCheck 0]

/-- State with worker 0 in the advancing position. -/
def c7Mid : Sys Nat Nat :=
  (run (initSys closeIters none OnError.CANCEL) c7Pre).getD dfltSys

/-- Net contribution of one worker to producer_qty: registrations minus
releases. -/
def wBal {T E : Type} (w : Worker T E) : Int :=
  (w.regCnt : Int) - (w.relCnt : Int)

/-- Per-worker invariant: a never-submitted worker has no counter activity;
a submitted worker was registered exactly once; only a worker whose loop
terminated (done) has released, exactly once, and pushed a failure exactly
when its loop exited through a raise; a cancelled worker never released. -/
def WInv {T E : Type} (w : Worker T E) : Prop :=
  match w.st with
  | WState.unsubmitted _ =>
      w.regCnt = 0 ∧ w.relCnt = 0 ∧ w.failPushCnt = 0 ∧ w.exitKind = none
  | WState.done =>
      w.regCnt = 1 ∧ w.relCnt = 1 ∧
      w.failPushCnt = (match w.exitKind with | some EK.raisedExit => 1 | _ => 0) ∧
      w.exitKind ≠ none
  | _ => w.regCnt = 1 ∧ w.relCnt = 0 ∧ w.failPushCnt = 0 ∧ w.exitKind = none

/-- The failure the coordinator is reacting to on the CANCEL error path (or
has surfaced), if any. -/
def coFail {E : Type} : CoState E → Option E
  | CoState.sawFailure e => some e
  | CoState.cancelling e _ => some e
  | CoState.raising e => some e
  | CoState.failDraining e => some e
  | CoState.failed e => some e
  | _ => none

/-- Coordinator phases at which done_flag has been set (CANCEL path). -/
def flagPhases {E : Type} : CoState E → Bool
  | CoState.cancelling _ _ => true
  | CoState.raising _ => true
  | CoState.failDraining _ => true
  | CoState.failed _ => true
  | _ => false

/-- Coordinator phases that exist only on the CANCEL error path. -/
def cancelPhaseB {E : Type} : CoState E → Bool
  | CoState.sawFailure _ => true
  | CoState.cancelling _ _ => true
  | CoState.raising _ => true
  | CoState.failDraining _ => true
  | _ => false

/-- Coordinator phases where the merged sequence has completed and returned
control to the consumer. -/
def terminalCoB {E : Type} : CoState E → Bool
  | CoState.finished => true
  | CoState.failed _ => true
  | CoState.closedDone => true
  | _ => false

/-- Whether a producer failure has been surfaced to the consumer. -/
def isFailedB {E : Type} : CoState E → Bool
  | CoState.failed _ => true
  | _ => false

/-- Coordinator phases on the early-close path. -/
def closePhaseB {E : Type} : CoState E → Bool
  | CoState.closing => true
  | CoState.closedDone => true
  | _ => false

/-- The Results sitting in the funnel FIFO, sentinel entries dropped. -/
def itemsOf {X : Type} : List (FItem X) → List X
  | [] => []
  | FItem.item v :: r => v :: itemsOf r
  | FItem.sentinel :: r => itemsOf r

/-- The failure Result a worker pushes for a raised error e. -/
def failureOf {T E : Type} (e : E) : Result T E :=
  { value := none, exc_info := some e }

/-- The success Result a worker pushes for a produced value v. -/
def valueOf {T E : Type} (v : T) : Result T E :=
  { value := some v, exc_info := none }

/-- The reachability invariant of the interleave transition system, proved
preserved by every step. -/
structure SInv {T E : Type} (s : Sys T E) : Prop where
  hW : ∀ w ∈ s.workers, WInv w
  hQty : s.funnel.producer_qty = (s.workers.map wBal).sum
  hFlagC : s.pol = OnError.CANCEL → s.flag = flagPhases s.co
  hFlagF : s.pol = OnError.FINISH_CURRENT → s.flag = false
  hRecC : s.pol = OnError.CANCEL → s.recorded = none
  hRecF : s.pol = OnError.FINISH_CURRENT → s.recorded = s.firstFail
  hPhaseF : s.pol = OnError.FINISH_CURRENT → cancelPhaseB s.co = false
  hNatF : s.pol = OnError.FINISH_CURRENT →
    ∀ w ∈ s.workers, w.st ≠ WState.cancelled ∧ w.exitKind ≠ some EK.stopExit
  hFirst : ∀ e, coFail s.co = some e → s.firstFail = some e
  hFirstC : s.pol = OnError.CANCEL → coFail s.co = none → s.firstFail = none
  hSurf : s.surfaceCnt = if isFailedB s.co then 1 else 0
  hEoiDrain : s.co = CoState.draining → s.eoiSeen = true
  hEoiFailF : s.pol = OnError.FINISH_CURRENT →
    ∀ e, s.co = CoState.failed e → s.eoiSeen = true
  hTerm : terminalCoB s.co = true → allStopped s = true
  hCancelled : ∀ w ∈ s.workers, w.st = WState.cancelled → coFail s.co ≠ none

/-- The properties claimed for the CANCEL policy, as facts about one
reachable state s: pulling a failure immediately stops further pulls and the
very next coordinator step sets done_flag; done_flag is set exactly from
then on; cancelling a not-yet-started future moves it to cancelled;
cancelled futures never start; the surfaced error is the first pulled
failure; at most one failure is surfaced per lifetime. -/
def C2Prop {T E : Type} (s : Sys T E) : Prop :=
  (∀ e, s.co = CoState.sawFailure e →
     stepFn s Act.coGet = none ∧
     ∃ s', stepFn s Act.coSetFlag = some s' ∧ s'.flag = true ∧
       s'.co = CoState.cancelling e 0) ∧
  s.flag = flagPhases s.co ∧
  (∀ (e : E) (i : Nat) (w : Worker T E), s.co = CoState.cancelling e i →
     s.workers[i]? = some w →
     ∀ its, w.st = WState.pending its →
       ∃ s', stepFn s Act.coCancel = some s' ∧
         s'.workers[i]? = some { w with st := WState.cancelled }) ∧
  (∀ (i : Nat) (w : Worker T E) (a : Act) (s' : Sys T E),
     s.workers[i]? = some w → w.st = WState.cancelled →
     stepFn s a = some s' → s'.workers[i]? = some w) ∧
  (∀ e, s.co = CoState.failed e → s.firstFail = some e) ∧
  (∀ e, coFail s.co = some e → stepFn s Act.coGet = none) ∧
  s.surfaceCnt ≤ 1 ∧ (s.surfaceCnt = 1 → isFailedB s.co = true)

/-- The amended producer-count accounting, as facts about one reachable
state: producer_qty equals registrations minus releases and stays
nonnegative; every worker registers at most once and releases at most once;
a worker that terminated by running (done) has released exactly once, while
a worker cancelled before it ever started was registered but never
releases. -/
def C4Prop {T E : Type} (s : Sys T E) : Prop :=
  s.funnel.producer_qty = (s.workers.map wBal).sum ∧
  0 ≤ s.funnel.producer_qty ∧
  ∀ w ∈ s.workers, w.regCnt ≤ 1 ∧ w.relCnt ≤ w.regCnt ∧
    (w.st = WState.done → w.relCnt = 1) ∧
    (w.st = WState.cancelled → w.regCnt = 1 ∧ w.relCnt = 0) ∧
    (wTerminalB w.st = false → w.relCnt = 0)

/-- The amended early-close behaviour, as facts about one reachable state:
closing the merged sequence never sets done_flag, and when control returns
to the consumer (closedDone) every worker has fully terminated - none was
cancelled - and has released its registration, so producer_qty is back to
0. -/
def C3Prop {T E : Type} (s : Sys T E) : Prop :=
  (closePhaseB s.co = true → s.flag = false) ∧
  (s.co = CoState.closedDone →
     (∀ w ∈ s.workers, w.st = WState.done ∧ w.relCnt = 1) ∧
     s.funnel.producer_qty = 0)

/-- The FINISH_CURRENT policy properties, as facts about one reachable
state of a FINISH_CURRENT run: done_flag is never set; no worker is ever
cancelled or stopped by the flag; when the merged sequence completed, every
worker ran to its own natural end; only the first failure is recorded;
pulling a success still yields it; pulling a failure keeps looping without
setting the flag, recording it only if it is the first; an error is
surfaced only after EndOfInput and equals the first failure pulled; at most
one error is surfaced. -/
def C1Prop {T E : Type} (s : Sys T E) : Prop :=
  s.flag = false ∧
  (∀ w ∈ s.workers, w.st ≠ WState.cancelled ∧ w.exitKind ≠ some EK.stopExit) ∧
  (terminalCoB s.co = true → ∀ w ∈ s.workers, w.st = WState.done) ∧
  s.recorded = s.firstFail ∧
  (∀ r rest s', s.co = CoState.looping → s.funnel.queue = FItem.item r :: rest →
     r.exc_info = none → stepFn s Act.coGet = some s' →
       s'.outputs = s.outputs ++ [r.value]) ∧
  (∀ e r rest s', s.co = CoState.looping → s.funnel.queue = FItem.item r :: rest →
     r.exc_info = some e → stepFn s Act.coGet = some s' →
       s'.flag = false ∧ s'.co = CoState.looping ∧
       s'.workers = s.workers ∧ s'.recorded = keepFirst s.recorded e) ∧
  (∀ e, s.co = CoState.failed e → s.eoiSeen = true ∧ s.firstFail = some e) ∧
  s.surfaceCnt ≤ 1

/-- The worker-loop properties, as facts about one valid transition out of
a reachable state: the flag test is what moves a worker into the advancing
position, and only with the flag unset; an exhausted iterator terminates the
worker pushing no Result; a raising advance pushes exactly one failure
Result and terminates the worker; a yielded value pushes one success Result
and returns to the flag test; and over the whole run every worker pushed at
most one failure Result. -/
def C7Prop {T E : Type} (s : Sys T E) (a : Act) (s' : Sys T E) : Prop :=
  (∀ w ∈ s'.workers, w.failPushCnt ≤ 1) ∧
  (∀ i w w' its, a = Act.wCheck i → s.workers[i]? = some w →
     s'.workers[i]? = some w' → w'.st = WState.advancing its →
       s.flag = false ∧ w.st = WState.checking its) ∧
  (∀ i w w', a = Act.wAdvance i → s.workers[i]? = some w →
     s'.workers[i]? = some w' →
    (w.st = WState.advancing [] →
       itemsOf s'.funnel.queue = itemsOf s.funnel.queue ∧
       w'.st = WState.done ∧ w'.failPushCnt = w.failPushCnt) ∧
    (∀ e rest, w.st = WState.advancing (Step.raise e :: rest) →
       itemsOf s'.funnel.queue = itemsOf s.funnel.queue ++ [failureOf e] ∧
       w'.st = WState.done ∧ w'.failPushCnt = w.failPushCnt + 1) ∧
    (∀ v rest, w.st = WState.advancing (Step.yieldv v :: rest) →
       itemsOf s'.funnel.queue = itemsOf s.funnel.queue ++ [valueOf v] ∧
       w'.st = WState.checking rest ∧ w'.failPushCnt = w.failPushCnt))

/-- The zero-sources behaviour, as facts about any state reachable under
schedule acts: nothing is yielded, there are no workers at all, and any
nonempty schedule has already completed the merged sequence. -/
def C9Prop {T E : Type} (s : Sys T E) (acts : List Act) : Prop :=
  s.outputs = [] ∧ s.workers = [] ∧ (acts ≠ [] → s.co = CoState.finished)

/-- An operation on a FunnelQueue viewed as a component: register a
producer, release one (the _close_one body), put an item, or get. -/
inductive FOp (T : Type) where
  | putting
  | closeOne
  | put : T → FOp T
  | get
  deriving DecidableEq, Repr

/-- Apply one component operation (a blocked get leaves the queue
unchanged). -/
def applyOp {T : Type} (q : FunnelQueue T) : FOp T → FunnelQueue T
  | FOp.putting => q.putting
  | FOp.closeOne => q.closeOne
  | FOp.put v => q.put v
  | FOp.get =>
    match q.get with
    | some (_, q') => q'
    | none => q

/-- Apply a sequence of component operations. -/
def runOps {T : Type} (q : FunnelQueue T) : List (FOp T) → FunnelQueue T
  | [] => q
  | op :: rest => runOps (applyOp q op) rest

/-- The registration discipline assumed by the completion protocol: no
producer registers after the done sentinel has been enqueued (the spec
calls registering after the final drain programmer misuse). -/
def noLateReg {T : Type} (q : FunnelQueue T) : List (FOp T) → Bool
  | [] => true
  | op :: rest =>
      (match op with
       | FOp.putting => decide (q.sentinelCnt = 0)
       | _ => true) && noLateReg (applyOp q op) rest

/-- Number of done sentinels currently in the FIFO. -/
def countS {T : Type} : List (FItem T) → Nat
  | [] => 0
  | FItem.sentinel :: r => countS r + 1
  | FItem.item _ :: r => countS r

/-- Invariant of the completion protocol under the registration
discipline: the sentinel was enqueued at most once, only after the count
dropped to zero, and every end-of-input pull consumed an enqueued
sentinel. -/
def FQInv {T : Type} (q : FunnelQueue T) : Prop :=
  q.sentinelCnt ≤ 1 ∧ (q.sentinelCnt = 1 → q.producer_qty ≤ 0) ∧
  q.eoiPulledCnt + countS q.queue = q.sentinelCnt

/-- The amended completion-marker claim about a funnel state: the marker was
enqueued at most once and the end-of-input condition was pulled at most
once. -/
def C5Prop {T : Type} (q : FunnelQueue T) : Prop :=
  q.sentinelCnt ≤ 1 ∧ q.eoiPulledCnt ≤ 1

/-- A well-disciplined component-level funnel history: one producer
registers, pushes one value, the consumer pulls it, the producer releases
(enqueueing the sentinel), and the consumer pulls EndOfInput. -/
def c5Ops : List (FOp Nat) :=
  [FOp.putting, FOp.put 5, FOp.get, FOp.closeOne, FOp.get]

/-! Helper lemmas. -/

theorem run_nil {T E : Type} (s : Sys T E) : run s [] = some s := rfl

theorem run_cons {T E : Type} (s : Sys T E) (a : Act) (as : List Act) :
    run s (a :: as) =
      match stepFn s a with
      | some s' => run s' as
      | none => none := rfl

theorem noLateReg_cons {T : Type} (q : FunnelQueue T) (op : FOp T)
    (rest : List (FOp T)) :
    noLateReg q (op :: rest) =
      ((match op with
        | FOp.putting => decide (q.sentinelCnt = 0)
        | _ => true) && noLateReg (applyOp q op) rest) := rfl

theorem sum_map_set {α : Type} (f : α → Int) :
    ∀ (l : List α) (i : Nat) (x w : α), l[i]? = some w →
      ((l.set i x).map f).sum = (l.map f).sum - f w + f x := by
  intro l
  induction l with
  | nil => intro i x w h; simp at h
  | cons a t ih =>
    intro i x w h
    cases i with
    | zero =>
      simp at h
      subst h
      show (List.map f (x :: t)).sum = (List.map f (a :: t)).sum - f a + f x
      simp only [List.map_cons, List.sum_cons]
      omega
    | succ j =>
      simp at h
      have hj := ih j x w h
      show (List.map f (a :: t.set j x)).sum = (List.map f (a :: t)).sum - f w + f x
      simp only [List.map_cons, List.sum_cons, hj]
      omega

theorem itemsOf_append {X : Type} (l1 l2 : List (FItem X)) :
    itemsOf (l1 ++ l2) = itemsOf l1 ++ itemsOf l2 := by
  induction l1 with
  | nil => simp [itemsOf]
  | cons a t ih => cases a <;> simp [itemsOf, ih]

theorem countS_append {X : Type} (l1 l2 : List (FItem X)) :
    countS (l1 ++ l2) = countS l1 + countS l2 := by
  induction l1 with
  | nil => simp [countS]
  | cons a t ih => cases a <;> (simp [countS, ih]; try omega)

theorem closeOne_qty {T : Type} (q : FunnelQueue T) :
    q.closeOne.producer_qty = q.producer_qty - 1 := by
  unfold FunnelQueue.closeOne
  split <;> rfl

theorem closeOne_cap {T : Type} (q : FunnelQueue T) :
    q.closeOne.cap = q.cap := by
  unfold FunnelQueue.closeOne
  split <;> rfl

theorem get_qty {T : Type} (q : FunnelQueue T) (p : Option T) (q' : FunnelQueue T)
    (h : q.get = some (p, q')) :
    q'.producer_qty = q.producer_qty ∧ q'.sentinelCnt = q.sentinelCnt ∧
      q'.cap = q.cap := by
  unfold FunnelQueue.get at h
  rcases hq : q.queue with _ | ⟨a, rest⟩ <;> rw [hq] at h
  · simp at h
  · cases a <;> simp at h <;> simp [← h.2]

/-! Claim theorems: the pure Result component. -/

/-- Claim C8: unwrapping an Outcome returns the stored value when no
failure was captured, and re-raises exactly the captured failure otherwise;
success reflects which side is held.  Result.get is a pure function of the
Result in this embedding, so it has no side effects on the Outcome. -/
theorem c8_outcome_unwrap {T E : Type} (v : Option T) (e : E) :
    (Result.mk v none : Result T E).get = Except.ok v ∧
    (Result.mk v (some e) : Result T E).get = Except.error e ∧
    (Result.mk v none : Result T E).success = true ∧
    (Result.mk v (some e) : Result T E).success = false :=
  ⟨rfl, rfl, rfl, rfl⟩

/-- Claim C10: Result.for_exc raises ValueError when no exception is being
handled, and otherwise returns a failure Result capturing exactly the
currently-handled exception. -/
theorem c10_for_exc {T E : Type} (e : E) :
    (Result.for_exc none : Except PyErr (Result T E)) =
      Except.error PyErr.valueError ∧
    (Result.for_exc (some e) : Except PyErr (Result T E)) =
      Except.ok { value := none, exc_info := some e } :=
  ⟨rfl, rfl⟩

/-! Claim C9: zero sources. -/

theorem empty_finished_stuck {T E : Type} (cap : Option Nat) (pol : OnError)
    (a : Act) :
    stepFn { initSys ([] : List (List (Step T E))) cap pol with
             co := CoState.finished } a = none := by
  cases a <;> rfl

/-- Claim C9: with zero source sequences the merged sequence yields
nothing, no workers exist or are started, and the very first scheduler step
completes the merged sequence (immediate termination). -/
theorem c9_zero_sources {T E : Type} (cap : Option Nat) (pol : OnError)
    (acts : List Act) (s : Sys T E)
    (h : run (initSys ([] : List (List (Step T E))) cap pol) acts = some s) :
    C9Prop s acts := by
  cases acts with
  | nil =>
    simp [run] at h
    subst h
    exact ⟨rfl, rfl, by simp⟩
  | cons a as =>
    have hstep : stepFn (initSys ([] : List (List (Step T E))) cap pol) a =
        if a = Act.submit then
          some { initSys ([] : List (List (Step T E))) cap pol with
                 co := CoState.finished }
        else none := by
      cases a <;> rfl
    rw [run_cons, hstep] at h
    by_cases ha : a = Act.submit
    · rw [if_pos ha] at h
      replace h : run { initSys ([] : List (List (Step T E))) cap pol with
          co := CoState.finished } as = some s := h
      cases as with
      | nil =>
        rw [run_nil] at h
        injection h with h
        subst h
        exact ⟨rfl, rfl, fun _ => rfl⟩
      | cons b bs =>
        rw [run_cons, empty_finished_stuck] at h
        exact absurd h (by simp)
    · rw [if_neg ha] at h
      exact absurd h (by simp)

/-- Witness for C9 at a concrete schedule. -/
theorem c9_zero_sources_witness :
    C9Prop ((run (initSys ([] : List (List (Step Nat Nat))) none OnError.CANCEL)
      [Act.submit]).getD dfltSys) [Act.submit] :=
  c9_zero_sources none OnError.CANCEL [Act.submit] _ rfl

/-! Claim C5: the completion protocol of the FunnelQueue component. -/

theorem fqinv_applyOp {T : Type} (q : FunnelQueue T) (op : FOp T)
    (hq : FQInv q) (hreg : op = FOp.putting → q.sentinelCnt = 0) :
    FQInv (applyOp q op) := by
  obtain ⟨h1, h2, h3⟩ := hq
  cases op with
  | putting =>
    have h0 := hreg rfl
    refine ⟨by simpa [applyOp, FunnelQueue.putting] using h1, ?_, ?_⟩
    · intro hone
      simp [applyOp, FunnelQueue.putting] at hone
      omega
    · simpa [applyOp, FunnelQueue.putting] using h3
  | closeOne =>
    show FQInv q.closeOne
    unfold FunnelQueue.closeOne
    by_cases hz : q.producer_qty - 1 = 0
    · rw [if_pos hz]
      have h0 : q.sentinelCnt = 0 := by
        by_contra hne
        have hone : q.sentinelCnt = 1 := by omega
        have := h2 hone
        omega
      refine ⟨?_, ?_, ?_⟩
      · simp [h0]
      · intro _
        simp
        omega
      · simp [countS_append, countS, h0]
        omega
    · rw [if_neg hz]
      refine ⟨h1, ?_, h3⟩
      intro hone
      have := h2 hone
      simp
      omega
  | put v =>
    show FQInv (q.put v)
    refine ⟨h1, h2, ?_⟩
    simp [FunnelQueue.put, countS_append, countS]
    omega
  | get =>
    show FQInv (match q.get with | some (_, q') => q' | none => q)
    unfold FunnelQueue.get
    rcases hqq : q.queue with _ | ⟨a, rest⟩
    · exact ⟨h1, h2, h3⟩
    · rw [hqq] at h3
      cases a with
      | item v =>
        refine ⟨h1, h2, ?_⟩
        simpa [countS] using h3
      | sentinel =>
        refine ⟨h1, h2, ?_⟩
        simp [countS] at h3 ⊢
        omega

theorem fqinv_runOps {T : Type} :
    ∀ (ops : List (FOp T)) (q : FunnelQueue T), FQInv q →
      noLateReg q ops = true → FQInv (runOps q ops) := by
  intro ops
  induction ops with
  | nil => intro q hq _; exact hq
  | cons op rest ih =>
    intro q hq hn
    rw [noLateReg_cons, Bool.and_eq_true] at hn
    refine ih (applyOp q op) (fqinv_applyOp q op hq ?_) hn.2
    intro hop
    subst hop
    simpa using hn.1

/-- Claim C5, amended: the completion marker is enqueued only by a release
whose decrement takes producer_qty from 1 to 0 (the decrement and check are
one atomic step, the lock); registering and putting never enqueue it; and
provided no producer registers after the marker has been enqueued, the
marker is enqueued at most once per funnel lifetime and the EndOfInput
condition is pulled at most once. -/
theorem c5_completion_protocol {T : Type} (cap : Option Nat) (ops : List (FOp T))
    (h : noLateReg (FunnelQueue.init T cap) ops = true) :
    C5Prop (runOps (FunnelQueue.init T cap) ops) ∧
    (∀ q : FunnelQueue T,
       q.closeOne.sentinelCnt =
         q.sentinelCnt + (if q.producer_qty = 1 then 1 else 0) ∧
       q.putting.sentinelCnt = q.sentinelCnt ∧
       ∀ v, (q.put v).sentinelCnt = q.sentinelCnt) := by
  constructor
  · have hinv : FQInv (runOps (FunnelQueue.init T cap) ops) := by
      refine fqinv_runOps ops _ ?_ h
      refine ⟨by simp [FunnelQueue.init], by simp [FunnelQueue.init], ?_⟩
      simp [FunnelQueue.init, countS]
    obtain ⟨h1, _, h3⟩ := hinv
    exact ⟨h1, by omega⟩
  · intro q
    refine ⟨?_, rfl, fun v => rfl⟩
    unfold FunnelQueue.closeOne
    by_cases hz : q.producer_qty - 1 = 0
    · rw [if_pos hz]
      have hone : q.producer_qty = 1 := by omega
      simp [hone]
    · rw [if_neg hz]
      have hone : ¬ q.producer_qty = 1 := by omega
      simp [hone]

/-- Witness for the amended C5 at a concrete operation history. -/
theorem c5_completion_protocol_witness :
    C5Prop (runOps (FunnelQueue.init Nat none) c5Ops) ∧
    (∀ q : FunnelQueue Nat,
       q.closeOne.sentinelCnt =
         q.sentinelCnt + (if q.producer_qty = 1 then 1 else 0) ∧
       q.putting.sentinelCnt = q.sentinelCnt ∧
       ∀ v, (q.put v).sentinelCnt = q.sentinelCnt) :=
  c5_completion_protocol none c5Ops rfl

/-! The reachability invariant: establishment and preservation. -/

theorem sinv_init {T E : Type} (iters : List (List (Step T E))) (cap : Option Nat)
    (pol : OnError) : SInv (initSys iters cap pol) := by
  refine ⟨?_, ?_, ?_, ?_, ?_, ?_, ?_, ?_, ?_, ?_, ?_, ?_, ?_, ?_, ?_⟩
  · intro w hw
    simp [initSys] at hw
    obtain ⟨it, _, rfl⟩ := hw
    simp [WInv]
  · show (0 : Int) = _
    symm
    apply List.sum_eq_zero
    intro x hx
    simp [initSys] at hx
    obtain ⟨it, _, rfl⟩ := hx
    simp [wBal]
  · intro _; rfl
  · intro _; rfl
  · intro _; rfl
  · intro _; rfl
  · intro _; rfl
  · intro hp w hw
    simp [initSys] at hw
    obtain ⟨it, _, rfl⟩ := hw
    simp
  · intro e he; simp [initSys, coFail] at he
  · intro _ _; rfl
  · rfl
  · intro hd; simp [initSys] at hd
  · intro _ e he; simp [initSys] at he
  · intro ht; simp [initSys, terminalCoB] at ht
  · intro w hw hc
    simp [initSys] at hw
    obtain ⟨it, _, rfl⟩ := hw
    simp at hc

theorem sinv_coSetFlag {T E : Type} {s s' : Sys T E} (hs : SInv s)
    (h : stepCoSetFlag s = some s') : SInv s' := by
  unfold stepCoSetFlag at h
  cases hco : s.co <;> rw [hco] at h <;> try exact Option.noConfusion h
  rename_i e
  replace h := Option.some.inj h
  subst h
  obtain ⟨hW, hQty, hFlagC, hFlagF, hRecC, hRecF, hPhaseF, hNatF, hFirst, hFirstC,
    hSurf, hEoiDrain, hEoiFailF, hTerm, hCancelled⟩ := hs
  refine ⟨hW, hQty, ?_, ?_, hRecC, ?_, ?_, ?_, ?_, ?_, ?_, ?_, ?_, ?_, ?_⟩
  · intro _; simp [flagPhases]
  · intro hf
    have hp := hPhaseF hf
    rw [hco] at hp
    simp [cancelPhaseB] at hp
  · intro hf
    have hp := hPhaseF hf
    rw [hco] at hp
    simp [cancelPhaseB] at hp
  · intro hf
    have hp := hPhaseF hf
    rw [hco] at hp
    simp [cancelPhaseB] at hp
  · intro hf
    have hp := hPhaseF hf
    rw [hco] at hp
    simp [cancelPhaseB] at hp
  · intro e' he'
    simp only [coFail] at he'
    rw [← he']
    exact hFirst e (by rw [hco]; rfl)
  · intro _ hnone
    simp [coFail] at hnone
  · rw [hco] at hSurf
    simpa [isFailedB] using hSurf
  · intro hd; exact absurd hd (by simp)
  · intro _ e' he'; exact absurd he' (by simp)
  · intro ht; simp [terminalCoB] at ht
  · intro w hw hc
    simp [coFail]

theorem sinv_coRaise {T E : Type} {s s' : Sys T E} (hs : SInv s)
    (h : stepCoRaise s = some s') : SInv s' := by
  unfold stepCoRaise at h
  cases hco : s.co <;> rw [hco] at h <;> try exact Option.noConfusion h
  rename_i e
  replace h := Option.some.inj h
  subst h
  obtain ⟨hW, hQty, hFlagC, hFlagF, hRecC, hRecF, hPhaseF, hNatF, hFirst, hFirstC,
    hSurf, hEoiDrain, hEoiFailF, hTerm, hCancelled⟩ := hs
  refine ⟨hW, hQty, ?_, hFlagF, hRecC, hRecF, ?_, hNatF, ?_, ?_, ?_, ?_, ?_, ?_, ?_⟩
  · intro hp
    rw [hFlagC hp, hco]
    simp [flagPhases]
  · intro hf
    have hp := hPhaseF hf
    rw [hco] at hp
    simp [cancelPhaseB] at hp
  · intro e' he'
    simp only [coFail] at he'
    rw [← he']
    exact hFirst e (by rw [hco]; rfl)
  · intro _ hnone
    simp [coFail] at hnone
  · rw [hco] at hSurf
    simpa [isFailedB] using hSurf
  · intro hd; exact absurd hd (by simp)
  · intro _ e' he'; exact absurd he' (by simp)
  · intro ht; simp [terminalCoB] at ht
  · intro w hw hc
    simp [coFail]

theorem sinv_coClose {T E : Type} {s s' : Sys T E} (hs : SInv s)
    (h : stepCoClose s = some s') : SInv s' := by
  unfold stepCoClose at h
  cases hco : s.co <;> rw [hco] at h <;> try exact Option.noConfusion h
  replace h := Option.some.inj h
  subst h
  obtain ⟨hW, hQty, hFlagC, hFlagF, hRecC, hRecF, hPhaseF, hNatF, hFirst, hFirstC,
    hSurf, hEoiDrain, hEoiFailF, hTerm, hCancelled⟩ := hs
  refine ⟨hW, hQty, ?_, hFlagF, hRecC, hRecF, ?_, hNatF, ?_, ?_, ?_, ?_, ?_, ?_, ?_⟩
  · intro hp
    rw [hFlagC hp, hco]
    simp [flagPhases]
  · intro _; simp [cancelPhaseB]
  · intro e' he'; simp [coFail] at he'
  · intro hp _
    exact hFirstC hp (by rw [hco]; rfl)
  · rw [hco] at hSurf
    simpa [isFailedB] using hSurf
  · intro hd; exact absurd hd (by simp)
  · intro _ e' he'; exact absurd he' (by simp)
  · intro ht; simp [terminalCoB] at ht
  · intro w hw hc
    have hold := hCancelled w hw hc
    rw [hco] at hold
    simp [coFail] at hold

theorem sinv_wStart {T E : Type} {s s' : Sys T E} {i : Nat} (hs : SInv s)
    (h : stepWStart s i = some s') : SInv s' := by
  unfold stepWStart at h
  split at h <;> try exact Option.noConfusion h
  rename_i w hwk
  split at h <;> try exact Option.noConfusion h
  rename_i its hst
  replace h := Option.some.inj h
  subst h
  obtain ⟨hW, hQty, hFlagC, hFlagF, hRecC, hRecF, hPhaseF, hNatF, hFirst, hFirstC,
    hSurf, hEoiDrain, hEoiFailF, hTerm, hCancelled⟩ := hs
  have hmem : w ∈ s.workers := List.getElem?_mem hwk
  have hwi := hW w hmem
  rw [WInv, hst] at hwi
  obtain ⟨hr1, hr2, hr3, hr4⟩ := hwi
  refine ⟨?_, ?_, hFlagC, hFlagF, hRecC, hRecF, hPhaseF, ?_, hFirst, hFirstC,
    hSurf, hEoiDrain, hEoiFailF, ?_, ?_⟩
  · intro w' hw'
    rcases List.mem_or_eq_of_mem_set hw' with hin | rfl
    · exact hW w' hin
    · rw [WInv]
      exact ⟨hr1, hr2, hr3, hr4⟩
  · show s.funnel.producer_qty = _
    rw [sum_map_set wBal s.workers i _ w hwk, hQty]
    simp [wBal]
  · intro hf w' hw'
    rcases List.mem_or_eq_of_mem_set hw' with hin | rfl
    · exact hNatF hf w' hin
    · exact ⟨by simp, by simp [hr4]⟩
  · intro ht
    exfalso
    have hall := hTerm ht
    rw [allStopped, List.all_eq_true] at hall
    have hterm := hall w hmem
    rw [hst] at hterm
    simp [wTerminalB] at hterm
  · intro w' hw' hc
    rcases List.mem_or_eq_of_mem_set hw' with hin | rfl
    · exact hCancelled w' hin hc
    · simp at hc

theorem sinv_coCancel {T E : Type} {s s' : Sys T E} (hs : SInv s)
    (h : stepCoCancel s = some s') : SInv s' := by
  unfold stepCoCancel at h
  split at h <;> try exact Option.noConfusion h
  rename_i e i hco
  obtain ⟨hW, hQty, hFlagC, hFlagF, hRecC, hRecF, hPhaseF, hNatF, hFirst, hFirstC,
    hSurf, hEoiDrain, hEoiFailF, hTerm, hCancelled⟩ := hs
  have hffC : s.firstFail = some e := hFirst e (by rw [hco]; rfl)
  have hnotF : s.pol = OnError.FINISH_CURRENT → False := by
    intro hf
    have hp := hPhaseF hf
    rw [hco] at hp
    simp [cancelPhaseB] at hp
  have hflag : s.pol = OnError.CANCEL → s.flag = true := by
    intro hp
    rw [hFlagC hp, hco]
    rfl
  split at h
  · rename_i w hwk
    split at h
    · rename_i its hst
      replace h := Option.some.inj h
      subst h
      have hmem : w ∈ s.workers := List.getElem?_mem hwk
      have hwi := hW w hmem
      rw [WInv, hst] at hwi
      obtain ⟨hr1, hr2, hr3, hr4⟩ := hwi
      refine ⟨?_, ?_, ?_, hFlagF, hRecC, hRecF, ?_, ?_, ?_, ?_, ?_, ?_, ?_, ?_, ?_⟩
      · intro w' hw'
        rcases List.mem_or_eq_of_mem_set hw' with hin | rfl
        · exact hW w' hin
        · rw [WInv]
          exact ⟨hr1, hr2, hr3, hr4⟩
      · show s.funnel.producer_qty = _
        rw [sum_map_set wBal s.workers i _ w hwk, hQty]
        simp [wBal]
      · intro hp
        rw [hflag hp]
        rfl
      · intro hf
        exact absurd hf (fun hf' => hnotF hf')
      · intro hf
        exact absurd hf (fun hf' => hnotF hf')
      · intro e' he'
        simp only [coFail] at he'
        rw [← he']
        exact hffC
      · intro _ hnone
        simp [coFail] at hnone
      · rw [hco] at hSurf
        simpa [isFailedB] using hSurf
      · intro hd
        exact absurd hd (by simp)
      · intro _ e' he'
        exact absurd he' (by simp)
      · intro ht
        simp [terminalCoB] at ht
      · intro w' hw' hc
        simp [coFail]
    · replace h := Option.some.inj h
      subst h
      refine ⟨hW, hQty, ?_, hFlagF, hRecC, hRecF, ?_, hNatF, ?_, ?_, ?_, ?_, ?_, ?_, ?_⟩
      · intro hp
        rw [hflag hp]
        rfl
      · intro hf
        exact absurd hf (fun hf' => hnotF hf')
      · intro e' he'
        simp only [coFail] at he'
        rw [← he']
        exact hffC
      · intro _ hnone
        simp [coFail] at hnone
      · rw [hco] at hSurf
        simpa [isFailedB] using hSurf
      · intro hd
        exact absurd hd (by simp)
      · intro _ e' he'
        exact absurd he' (by simp)
      · intro ht
        simp [terminalCoB] at ht
      · intro w' hw' hc
        simp [coFail]
  · replace h := Option.some.inj h
    subst h
    refine ⟨hW, hQty, ?_, hFlagF, hRecC, hRecF, ?_, hNatF, ?_, ?_, ?_, ?_, ?_, ?_, ?_⟩
    · intro hp
      rw [hflag hp]
      rfl
    · intro hf
      exact absurd hf (fun hf' => hnotF hf')
    · intro e' he'
      simp only [coFail] at he'
      rw [← he']
      exact hffC
    · intro _ hnone
      simp [coFail] at hnone
    · rw [hco] at hSurf
      simpa [isFailedB] using hSurf
    · intro hd
      exact absurd hd (by simp)
    · intro _ e' he'
      exact absurd he' (by simp)
    · intro ht
      simp [terminalCoB] at ht
    · intro w' hw' hc
      simp [coFail]

theorem sinv_submit {T E : Type} {s s' : Sys T E} (hs : SInv s)
    (h : stepSubmit s = some s') : SInv s' := by
  unfold stepSubmit at h
  split at h <;> try exact Option.noConfusion h
  rename_i k hco
  obtain ⟨hW, hQty, hFlagC, hFlagF, hRecC, hRecF, hPhaseF, hNatF, hFirst, hFirstC,
    hSurf, hEoiDrain, hEoiFailF, hTerm, hCancelled⟩ := hs
  have hfl : s.pol = OnError.CANCEL → s.flag = false := by
    intro hp
    rw [hFlagC hp, hco]
    rfl
  have hnoc : ∀ w ∈ s.workers, w.st ≠ WState.cancelled := by
    intro w hw hc
    exact (hCancelled w hw hc) (by rw [hco]; rfl)
  split at h
  · rename_i w hwk
    split at h <;> try exact Option.noConfusion h
    rename_i its hst
    replace h := Option.some.inj h
    subst h
    have hmem : w ∈ s.workers := List.getElem?_mem hwk
    have hwi := hW w hmem
    rw [WInv, hst] at hwi
    obtain ⟨hr1, hr2, hr3, hr4⟩ := hwi
    refine ⟨?_, ?_, ?_, hFlagF, hRecC, hRecF, ?_, ?_, ?_, ?_, ?_, ?_, ?_, ?_, ?_⟩
    · intro w' hw'
      rcases List.mem_or_eq_of_mem_set hw' with hin | rfl
      · exact hW w' hin
      · rw [WInv]
        refine ⟨by simp [hr1], hr2, hr3, hr4⟩
    · show s.funnel.producer_qty + 1 = _
      rw [sum_map_set wBal s.workers k _ w hwk, hQty]
      simp [wBal, hr1, hr2]
    · intro hp
      rw [hfl hp]
      rfl
    · intro _; rfl
    · intro hf w' hw'
      rcases List.mem_or_eq_of_mem_set hw' with hin | rfl
      · exact hNatF hf w' hin
      · exact ⟨by simp, by simp [hr4]⟩
    · intro e' he'
      simp [coFail] at he'
    · intro hp _
      exact hFirstC hp (by rw [hco]; rfl)
    · rw [hco] at hSurf
      simpa [isFailedB] using hSurf
    · intro hd
      exact absurd hd (by simp)
    · intro _ e' he'
      exact absurd he' (by simp)
    · intro ht
      simp [terminalCoB] at ht
    · intro w' hw' hc
      rcases List.mem_or_eq_of_mem_set hw' with hin | rfl
      · exact absurd hc (hnoc w' hin)
      · simp at hc
  · by_cases he : s.workers.isEmpty = true
    · rw [if_pos he] at h
      replace h := Option.some.inj h
      subst h
      have hempty : s.workers = [] := List.isEmpty_iff.mp he
      refine ⟨hW, hQty, ?_, hFlagF, hRecC, hRecF, ?_, hNatF, ?_, ?_, ?_, ?_, ?_, ?_, ?_⟩
      · intro hp
        rw [hfl hp]
        rfl
      · intro _; rfl
      · intro e' he'
        simp [coFail] at he'
      · intro hp _
        exact hFirstC hp (by rw [hco]; rfl)
      · rw [hco] at hSurf
        simpa [isFailedB] using hSurf
      · intro hd
        exact absurd hd (by simp)
      · intro _ e' he'
        exact absurd he' (by simp)
      · intro _
        simp [allStopped, hempty]
      · intro w' hw' hc
        exact absurd hc (hnoc w' hw')
    · rw [if_neg he] at h
      replace h := Option.some.inj h
      subst h
      refine ⟨hW, hQty, ?_, hFlagF, hRecC, hRecF, ?_, hNatF, ?_, ?_, ?_, ?_, ?_, ?_, ?_⟩
      · intro hp
        rw [hfl hp]
        rfl
      · intro _; rfl
      · intro e' he'
        simp [coFail] at he'
      · intro hp _
        exact hFirstC hp (by rw [hco]; rfl)
      · rw [hco] at hSurf
        simpa [isFailedB] using hSurf
      · intro hd
        exact absurd hd (by simp)
      · intro _ e' he'
        exact absurd he' (by simp)
      · intro ht
        simp [terminalCoB] at ht
      · intro w' hw' hc
        exact absurd hc (hnoc w' hw')

theorem sinv_wCheck {T E : Type} {s s' : Sys T E} {i : Nat} (hs : SInv s)
    (h : stepWCheck s i = some s') : SInv s' := by
  unfold stepWCheck at h
  split at h <;> try exact Option.noConfusion h
  rename_i w hwk
  split at h <;> try exact Option.noConfusion h
  rename_i its hst
  obtain ⟨hW, hQty, hFlagC, hFlagF, hRecC, hRecF, hPhaseF, hNatF, hFirst, hFirstC,
    hSurf, hEoiDrain, hEoiFailF, hTerm, hCancelled⟩ := hs
  have hmem : w ∈ s.workers := List.getElem?_mem hwk
  have hwi := hW w hmem
  rw [WInv, hst] at hwi
  obtain ⟨hr1, hr2, hr3, hr4⟩ := hwi
  have hterm : terminalCoB s.co = true → False := by
    intro ht
    have hall := hTerm ht
    rw [allStopped, List.all_eq_true] at hall
    have hx := hall w hmem
    rw [hst] at hx
    simp [wTerminalB] at hx
  by_cases hfl : s.flag = true
  · rw [if_pos hfl] at h
    by_cases hrel : s.funnel.relOk = true
    · rw [if_pos hrel] at h
      replace h := Option.some.inj h
      subst h
      refine ⟨?_, ?_, hFlagC, hFlagF, hRecC, hRecF, hPhaseF, ?_, hFirst, hFirstC,
        hSurf, hEoiDrain, hEoiFailF, ?_, ?_⟩
      · intro w' hw'
        rcases List.mem_or_eq_of_mem_set hw' with hin | rfl
        · exact hW w' hin
        · simp [WInv, hr1, hr2, hr3, hr4]
      · show (s.funnel.closeOne).producer_qty = _
        rw [closeOne_qty, sum_map_set wBal s.workers i _ w hwk, hQty]
        simp [wBal, hr1, hr2]
      · intro hf
        rw [hFlagF hf] at hfl
        simp at hfl
      · intro ht
        exact absurd ht (fun ht' => hterm ht')
      · intro w' hw' hc
        rcases List.mem_or_eq_of_mem_set hw' with hin | rfl
        · exact hCancelled w' hin hc
        · simp at hc
    · rw [if_neg hrel] at h
      exact Option.noConfusion h
  · rw [if_neg hfl] at h
    replace h := Option.some.inj h
    subst h
    refine ⟨?_, ?_, hFlagC, hFlagF, hRecC, hRecF, hPhaseF, ?_, hFirst, hFirstC,
      hSurf, hEoiDrain, hEoiFailF, ?_, ?_⟩
    · intro w' hw'
      rcases List.mem_or_eq_of_mem_set hw' with hin | rfl
      · exact hW w' hin
      · rw [WInv]
        exact ⟨hr1, hr2, hr3, hr4⟩
    · show s.funnel.producer_qty = _
      rw [sum_map_set wBal s.workers i _ w hwk, hQty]
      simp [wBal]
    · intro hf w' hw'
      rcases List.mem_or_eq_of_mem_set hw' with hin | rfl
      · exact hNatF hf w' hin
      · exact ⟨by simp, by simp [hr4]⟩
    · intro ht
      exact absurd ht (fun ht' => hterm ht')
    · intro w' hw' hc
      rcases List.mem_or_eq_of_mem_set hw' with hin | rfl
      · exact hCancelled w' hin hc
      · simp at hc

theorem sinv_wAdvance {T E : Type} {s s' : Sys T E} {i : Nat} (hs : SInv s)
    (h : stepWAdvance s i = some s') : SInv s' := by
  unfold stepWAdvance at h
  split at h <;> try exact Option.noConfusion h
  rename_i w hwk
  split at h <;> try exact Option.noConfusion h
  rename_i its hst
  obtain ⟨hW, hQty, hFlagC, hFlagF, hRecC, hRecF, hPhaseF, hNatF, hFirst, hFirstC,
    hSurf, hEoiDrain, hEoiFailF, hTerm, hCancelled⟩ := hs
  have hmem : w ∈ s.workers := List.getElem?_mem hwk
  have hwi := hW w hmem
  rw [WInv, hst] at hwi
  obtain ⟨hr1, hr2, hr3, hr4⟩ := hwi
  have hterm : terminalCoB s.co = true → False := by
    intro ht
    have hall := hTerm ht
    rw [allStopped, List.all_eq_true] at hall
    have hx := hall w hmem
    rw [hst] at hx
    simp [wTerminalB] at hx
  split at h
  case _ =>
    by_cases hrel : s.funnel.relOk = true
    · rw [if_pos hrel] at h
      replace h := Option.some.inj h
      subst h
      refine ⟨?_, ?_, hFlagC, hFlagF, hRecC, hRecF, hPhaseF, ?_, hFirst, hFirstC,
        hSurf, hEoiDrain, hEoiFailF, ?_, ?_⟩
      · intro w' hw'
        rcases List.mem_or_eq_of_mem_set hw' with hin | rfl
        · exact hW w' hin
        · simp [WInv, hr1, hr2, hr3, hr4]
      · show (s.funnel.closeOne).producer_qty = _
        rw [closeOne_qty, sum_map_set wBal s.workers i _ w hwk, hQty]
        simp [wBal, hr1, hr2]
      · intro hf w' hw'
        rcases List.mem_or_eq_of_mem_set hw' with hin | rfl
        · exact hNatF hf w' hin
        · exact ⟨by simp, by simp⟩
      · intro ht
        exact absurd ht (fun ht' => hterm ht')
      · intro w' hw' hc
        rcases List.mem_or_eq_of_mem_set hw' with hin | rfl
        · exact hCancelled w' hin hc
        · simp at hc
    · rw [if_neg hrel] at h
      exact Option.noConfusion h
  case _ v rest =>
    by_cases hcap : s.funnel.capOk = true
    · rw [if_pos hcap] at h
      replace h := Option.some.inj h
      subst h
      refine ⟨?_, ?_, hFlagC, hFlagF, hRecC, hRecF, hPhaseF, ?_, hFirst, hFirstC,
        hSurf, hEoiDrain, hEoiFailF, ?_, ?_⟩
      · intro w' hw'
        rcases List.mem_or_eq_of_mem_set hw' with hin | rfl
        · exact hW w' hin
        · simp [WInv, hr1, hr2, hr3, hr4]
      · show s.funnel.producer_qty = _
        rw [sum_map_set wBal s.workers i _ w hwk, hQty]
        simp [wBal]
      · intro hf w' hw'
        rcases List.mem_or_eq_of_mem_set hw' with hin | rfl
        · exact hNatF hf w' hin
        · exact ⟨by simp, by simp [hr4]⟩
      · intro ht
        exact absurd ht (fun ht' => hterm ht')
      · intro w' hw' hc
        rcases List.mem_or_eq_of_mem_set hw' with hin | rfl
        · exact hCancelled w' hin hc
        · simp at hc
    · rw [if_neg hcap] at h
      exact Option.noConfusion h
  case _ e rest =>
    by_cases hcap : (s.funnel.capOk &&
        (s.funnel.put { value := none, exc_info := some e }).relOk) = true
    · rw [if_pos hcap] at h
      replace h := Option.some.inj h
      subst h
      refine ⟨?_, ?_, hFlagC, hFlagF, hRecC, hRecF, hPhaseF, ?_, hFirst, hFirstC,
        hSurf, hEoiDrain, hEoiFailF, ?_, ?_⟩
      · intro w' hw'
        rcases List.mem_or_eq_of_mem_set hw' with hin | rfl
        · exact hW w' hin
        · simp [WInv, hr1, hr2, hr3, hr4]
      · show ((s.funnel.put _).closeOne).producer_qty = _
        rw [closeOne_qty, sum_map_set wBal s.workers i _ w hwk]
        simp [FunnelQueue.put, wBal, hr1, hr2, hQty]
        try omega
      · intro hf w' hw'
        rcases List.mem_or_eq_of_mem_set hw' with hin | rfl
        · exact hNatF hf w' hin
        · exact ⟨by simp, by simp⟩
      · intro ht
        exact absurd ht (fun ht' => hterm ht')
      · intro w' hw' hc
        rcases List.mem_or_eq_of_mem_set hw' with hin | rfl
        · exact hCancelled w' hin hc
        · simp at hc
    · rw [if_neg hcap] at h
      exact Option.noConfusion h

theorem sinv_coGet {T E : Type} {s s' : Sys T E} (hs : SInv s)
    (h : stepCoGet s = some s') : SInv s' := by
  unfold stepCoGet at h
  split at h <;> try exact Option.noConfusion h
  rename_i hco
  obtain ⟨hW, hQty, hFlagC, hFlagF, hRecC, hRecF, hPhaseF, hNatF, hFirst, hFirstC,
    hSurf, hEoiDrain, hEoiFailF, hTerm, hCancelled⟩ := hs
  have hfl : s.pol = OnError.CANCEL → s.flag = false := by
    intro hp
    rw [hFlagC hp, hco]
    rfl
  have hnoc : ∀ w ∈ s.workers, w.st ≠ WState.cancelled := by
    intro w hw hc
    exact (hCancelled w hw hc) (by rw [hco]; rfl)
  split at h <;> try exact Option.noConfusion h
  · rename_i f hget
    replace h := Option.some.inj h
    subst h
    obtain ⟨hq1, hq2, hq3⟩ := get_qty s.funnel none f hget
    refine ⟨hW, ?_, ?_, hFlagF, hRecC, hRecF, ?_, hNatF, ?_, ?_, ?_, ?_, ?_, ?_, ?_⟩
    · show f.producer_qty = _
      rw [hq1]
      exact hQty
    · intro hp
      rw [hfl hp]
      rfl
    · intro _; rfl
    · intro e' he'
      simp [coFail] at he'
    · intro hp _
      exact hFirstC hp (by rw [hco]; rfl)
    · rw [hco] at hSurf
      simpa [isFailedB] using hSurf
    · intro _; rfl
    · intro _ e' he'
      exact absurd he' (by simp)
    · intro ht
      simp [terminalCoB] at ht
    · intro w hw hc
      exact absurd hc (hnoc w hw)
  · rename_i r f hget
    obtain ⟨hq1, hq2, hq3⟩ := get_qty s.funnel (some r) f hget
    split at h
    · rename_i hexc
      replace h := Option.some.inj h
      subst h
      refine ⟨hW, ?_, hFlagC, hFlagF, hRecC, hRecF, hPhaseF, hNatF, hFirst, hFirstC,
        hSurf, hEoiDrain, hEoiFailF, ?_, ?_⟩
      · show f.producer_qty = _
        rw [hq1]
        exact hQty
      · intro ht
        rw [hco] at ht
        simp [terminalCoB] at ht
      · intro w hw hc
        exact absurd hc (hnoc w hw)
    · rename_i e hexc
      split at h
      · rename_i hpol
        replace h := Option.some.inj h
        subst h
        have hffn : s.firstFail = none := hFirstC hpol (by rw [hco]; rfl)
        refine ⟨hW, ?_, ?_, ?_, hRecC, ?_, ?_, ?_, ?_, ?_, ?_, ?_, ?_, ?_, ?_⟩
        · show f.producer_qty = _
          rw [hq1]
          exact hQty
        · intro hp
          rw [hfl hp]
          rfl
        · intro hf
          rw [hpol] at hf
          exact OnError.noConfusion hf
        · intro hf
          rw [hpol] at hf
          exact OnError.noConfusion hf
        · intro hf
          rw [hpol] at hf
          exact OnError.noConfusion hf
        · intro hf
          rw [hpol] at hf
          exact OnError.noConfusion hf
        · intro e' he'
          simp only [coFail] at he'
          rw [← he']
          simp [keepFirst, hffn]
        · intro _ hnone
          simp [coFail] at hnone
        · rw [hco] at hSurf
          simpa [isFailedB] using hSurf
        · intro hd
          exact absurd hd (by simp)
        · intro _ e' he'
          exact absurd he' (by simp)
        · intro ht
          simp [terminalCoB] at ht
        · intro w hw hc
          exact absurd hc (hnoc w hw)
      · rename_i hpol
        unfold finishReact at h
        replace h := Option.some.inj h
        subst h
        refine ⟨hW, ?_, ?_, hFlagF, ?_, ?_, ?_, hNatF, ?_, ?_, ?_, ?_, ?_, ?_, ?_⟩
        · show f.producer_qty = _
          rw [hq1]
          exact hQty
        · intro hp
          rw [hpol] at hp
          exact OnError.noConfusion hp
        · intro hp
          rw [hpol] at hp
          exact OnError.noConfusion hp
        · intro _
          show keepFirst s.recorded e = keepFirst s.firstFail e
          rw [hRecF hpol]
        · intro _; rfl
        · intro e' he'
          simp [coFail] at he'
        · intro hp
          rw [hpol] at hp
          exact OnError.noConfusion hp
        · rw [hco] at hSurf
          simpa [isFailedB] using hSurf
        · intro hd
          exact absurd hd (by simp)
        · intro _ e' he'
          exact absurd he' (by simp)
        · intro ht
          simp [terminalCoB] at ht
        · intro w hw hc
          exact absurd hc (hnoc w hw)

theorem sinv_drainEnd {T E : Type} {s s' : Sys T E} (hs : SInv s)
    (h : stepDrainEnd s = some s') : SInv s' := by
  unfold stepDrainEnd at h
  by_cases hall : allStopped s = true
  · rw [if_pos hall] at h
    obtain ⟨hW, hQty, hFlagC, hFlagF, hRecC, hRecF, hPhaseF, hNatF, hFirst, hFirstC,
      hSurf, hEoiDrain, hEoiFailF, hTerm, hCancelled⟩ := hs
    split at h <;> try exact Option.noConfusion h
    · rename_i hco
      have hnoc : ∀ w ∈ s.workers, w.st ≠ WState.cancelled := by
        intro w hw hc
        exact (hCancelled w hw hc) (by rw [hco]; rfl)
      cases hpol : s.pol with
      | CANCEL =>
        have hdt : drainTarget s.pol s.recorded = (CoState.finished : CoState E) := by
          rw [hpol]
          rfl
        rw [hdt] at h
        replace h := Option.some.inj h
        subst h
        refine ⟨hW, hQty, ?_, hFlagF, hRecC, hRecF, ?_, hNatF, ?_, ?_, ?_, ?_, ?_, ?_, ?_⟩
        · intro hp
          rw [hFlagC hp, hco]
          rfl
        · intro _; rfl
        · intro e' he'
          simp [coFail] at he'
        · intro hp _
          exact hFirstC hp (by rw [hco]; rfl)
        · rw [hco] at hSurf
          simpa [isFailedB] using hSurf
        · intro hd
          exact absurd hd (by simp)
        · intro _ e' he'
          exact absurd he' (by simp)
        · intro _
          exact hall
        · intro w hw hc
          exact absurd hc (hnoc w hw)
      | FINISH_CURRENT =>
        cases hrec : s.recorded with
        | none =>
          have hdt : drainTarget s.pol s.recorded = (CoState.finished : CoState E) := by
            rw [hpol, hrec]
            rfl
          rw [hdt] at h
          replace h := Option.some.inj h
          subst h
          refine ⟨hW, hQty, ?_, hFlagF, hRecC, hRecF, ?_, hNatF, ?_, ?_, ?_, ?_, ?_, ?_, ?_⟩
          · intro hp
            rw [hFlagC hp, hco]
            rfl
          · intro _; rfl
          · intro e' he'
            simp [coFail] at he'
          · intro hp
            rw [hpol] at hp
            exact OnError.noConfusion hp
          · rw [hco] at hSurf
            simpa [isFailedB] using hSurf
          · intro hd
            exact absurd hd (by simp)
          · intro _ e' he'
            exact absurd he' (by simp)
          · intro _
            exact hall
          · intro w hw hc
            exact absurd hc (hnoc w hw)
        | some e =>
          have hdt : drainTarget s.pol s.recorded = CoState.failed e := by
            rw [hpol, hrec]
            rfl
          rw [hdt] at h
          replace h := Option.some.inj h
          subst h
          refine ⟨hW, hQty, ?_, hFlagF, ?_, hRecF, ?_, hNatF, ?_, ?_, ?_, ?_, ?_, ?_, ?_⟩
          · intro hp
            rw [hpol] at hp
            exact OnError.noConfusion hp
          · intro hp
            rw [hpol] at hp
            exact OnError.noConfusion hp
          · intro _; rfl
          · intro e' he'
            simp only [coFail] at he'
            rw [← he', ← hRecF hpol]
            exact hrec
          · intro hp
            rw [hpol] at hp
            exact OnError.noConfusion hp
          · rw [hco] at hSurf
            simp [isFailedB] at hSurf ⊢
            omega
          · intro hd
            exact absurd hd (by simp)
          · intro _ e' _
            exact hEoiDrain hco
          · intro _
            exact hall
          · intro w hw hc
            exact absurd hc (hnoc w hw)
    · rename_i e hco
      replace h := Option.some.inj h
      subst h
      have hnotF : s.pol = OnError.FINISH_CURRENT → False := by
        intro hf
        have hp := hPhaseF hf
        rw [hco] at hp
        simp [cancelPhaseB] at hp
      refine ⟨hW, hQty, ?_, ?_, hRecC, hRecF, ?_, hNatF, ?_, ?_, ?_, ?_, ?_, ?_, ?_⟩
      · intro hp
        rw [hFlagC hp, hco]
        rfl
      · intro hf
        exact absurd hf (fun hf' => hnotF hf')
      · intro hf
        exact absurd hf (fun hf' => hnotF hf')
      · intro e' he'
        simp only [coFail] at he'
        rw [← he']
        exact hFirst e (by rw [hco]; rfl)
      · intro _ hnone
        simp [coFail] at hnone
      · rw [hco] at hSurf
        simp [isFailedB] at hSurf ⊢
        omega
      · intro hd
        exact absurd hd (by simp)
      · intro hf
        exact absurd hf (fun hf' => hnotF hf')
      · intro _
        exact hall
      · intro w hw hc
        simp [coFail]
    · rename_i hco
      replace h := Option.some.inj h
      subst h
      refine ⟨hW, hQty, ?_, hFlagF, hRecC, hRecF, ?_, hNatF, ?_, ?_, ?_, ?_, ?_, ?_, ?_⟩
      · intro hp
        rw [hFlagC hp, hco]
        rfl
      · intro _; rfl
      · intro e' he'
        simp [coFail] at he'
      · intro hp _
        exact hFirstC hp (by rw [hco]; rfl)
      · rw [hco] at hSurf
        simpa [isFailedB] using hSurf
      · intro hd
        exact absurd hd (by simp)
      · intro _ e' he'
        exact absurd he' (by simp)
      · intro _
        exact hall
      · intro w hw hc
        exfalso
        exact (hCancelled w hw hc) (by rw [hco]; rfl)
  · rw [if_neg hall] at h
    exact Option.noConfusion h

theorem sinv_step {T E : Type} {s s' : Sys T E} (a : Act) (hs : SInv s)
    (h : stepFn s a = some s') : SInv s' := by
  cases a with
  | submit => exact sinv_submit hs h
  | coGet => exact sinv_coGet hs h
  | coSetFlag => exact sinv_coSetFlag hs h
  | coCancel => exact sinv_coCancel hs h
  | coRaise => exact sinv_coRaise hs h
  | coClose => exact sinv_coClose hs h
  | drainEnd => exact sinv_drainEnd hs h
  | wStart i => exact sinv_wStart hs h
  | wCheck i => exact sinv_wCheck hs h
  | wAdvance i => exact sinv_wAdvance hs h

theorem sinv_run {T E : Type} :
    ∀ (acts : List Act) (s s' : Sys T E), SInv s → run s acts = some s' → SInv s' := by
  intro acts
  induction acts with
  | nil =>
    intro s s' hs h
    rw [run_nil] at h
    injection h with h
    subst h
    exact hs
  | cons a as ih =>
    intro s s' hs h
    rw [run_cons] at h
    cases hstep : stepFn s a with
    | none => rw [hstep] at h; exact Option.noConfusion h
    | some s1 =>
      rw [hstep] at h
      exact ih s1 s' (sinv_step a hs hstep) h

theorem sinv_reach {T E : Type} (iters : List (List (Step T E))) (cap : Option Nat)
    (pol : OnError) (acts : List Act) (s : Sys T E)
    (h : run (initSys iters cap pol) acts = some s) : SInv s :=
  sinv_run acts _ s (sinv_init iters cap pol) h

theorem set_keeps_other {α : Type} {l : List α} {j i : Nat} {x : α} {w : α}
    (hne : j ≠ i) (hwk : l[i]? = some w) : (l.set j x)[i]? = some w := by
  rw [List.getElem?_set_ne hne]
  exact hwk

theorem cancelled_stays {T E : Type} {s s' : Sys T E} {i : Nat} {w : Worker T E}
    (a : Act) (hwk : s.workers[i]? = some w) (hc : w.st = WState.cancelled)
    (h : stepFn s a = some s') : s'.workers[i]? = some w := by
  have contra : ∀ (j : Nat) (wj : Worker T E), s.workers[j]? = some wj →
      wj.st ≠ WState.cancelled → j ≠ i := by
    intro j wj hwkj hstj hij
    subst hij
    rw [hwk] at hwkj
    injection hwkj with hwkj
    subst hwkj
    exact hstj hc
  cases a with
  | submit =>
    replace h : stepSubmit s = some s' := h
    unfold stepSubmit at h
    split at h <;> try exact Option.noConfusion h
    rename_i k hco
    split at h
    · rename_i wk hwkk
      split at h <;> try exact Option.noConfusion h
      rename_i its hst
      replace h := Option.some.inj h
      subst h
      exact set_keeps_other (contra k wk hwkk (by rw [hst]; simp)) hwk
    · replace h := Option.some.inj h
      subst h
      exact hwk
  | coGet =>
    replace h : stepCoGet s = some s' := h
    unfold stepCoGet at h
    split at h <;> try exact Option.noConfusion h
    split at h <;> try exact Option.noConfusion h
    · replace h := Option.some.inj h
      subst h
      exact hwk
    · split at h
      · replace h := Option.some.inj h
        subst h
        exact hwk
      · split at h <;> replace h := Option.some.inj h <;> subst h
        · exact hwk
        · exact hwk
  | coSetFlag =>
    replace h : stepCoSetFlag s = some s' := h
    unfold stepCoSetFlag at h
    split at h <;> try exact Option.noConfusion h
    replace h := Option.some.inj h
    subst h
    exact hwk
  | coCancel =>
    replace h : stepCoCancel s = some s' := h
    unfold stepCoCancel at h
    split at h <;> try exact Option.noConfusion h
    rename_i e k hco
    split at h
    · rename_i wk hwkk
      split at h
      · rename_i its hst
        replace h := Option.some.inj h
        subst h
        exact set_keeps_other (contra k wk hwkk (by rw [hst]; simp)) hwk
      · replace h := Option.some.inj h
        subst h
        exact hwk
    · replace h := Option.some.inj h
      subst h
      exact hwk
  | coRaise =>
    replace h : stepCoRaise s = some s' := h
    unfold stepCoRaise at h
    split at h <;> try exact Option.noConfusion h
    replace h := Option.some.inj h
    subst h
    exact hwk
  | coClose =>
    replace h : stepCoClose s = some s' := h
    unfold stepCoClose at h
    split at h <;> try exact Option.noConfusion h
    replace h := Option.some.inj h
    subst h
    exact hwk
  | drainEnd =>
    replace h : stepDrainEnd s = some s' := h
    unfold stepDrainEnd at h
    by_cases hall : allStopped s = true
    · rw [if_pos hall] at h
      split at h <;> try exact Option.noConfusion h
      · split at h <;> replace h := Option.some.inj h <;> subst h
        · exact hwk
        · exact hwk
      · replace h := Option.some.inj h
        subst h
        exact hwk
      · replace h := Option.some.inj h
        subst h
        exact hwk
    · rw [if_neg hall] at h
      exact Option.noConfusion h
  | wStart j =>
    replace h : stepWStart s j = some s' := h
    unfold stepWStart at h
    split at h <;> try exact Option.noConfusion h
    rename_i wj hwkj
    split at h <;> try exact Option.noConfusion h
    rename_i its hst
    replace h := Option.some.inj h
    subst h
    exact set_keeps_other (contra j wj hwkj (by rw [hst]; simp)) hwk
  | wCheck j =>
    replace h : stepWCheck s j = some s' := h
    unfold stepWCheck at h
    split at h <;> try exact Option.noConfusion h
    rename_i wj hwkj
    split at h <;> try exact Option.noConfusion h
    rename_i its hst
    have hne : j ≠ i := contra j wj hwkj (by rw [hst]; simp)
    by_cases hfl : s.flag = true
    · rw [if_pos hfl] at h
      by_cases hrel : s.funnel.relOk = true
      · rw [if_pos hrel] at h
        replace h := Option.some.inj h
        subst h
        exact set_keeps_other hne hwk
      · rw [if_neg hrel] at h
        exact Option.noConfusion h
    · rw [if_neg hfl] at h
      replace h := Option.some.inj h
      subst h
      exact set_keeps_other hne hwk
  | wAdvance j =>
    replace h : stepWAdvance s j = some s' := h
    unfold stepWAdvance at h
    split at h <;> try exact Option.noConfusion h
    rename_i wj hwkj
    split at h <;> try exact Option.noConfusion h
    rename_i its hst
    have hne : j ≠ i := contra j wj hwkj (by rw [hst]; simp)
    split at h
    · by_cases hrel : s.funnel.relOk = true
      · rw [if_pos hrel] at h
        replace h := Option.some.inj h
        subst h
        exact set_keeps_other hne hwk
      · rw [if_neg hrel] at h
        exact Option.noConfusion h
    · rename_i v rest
      by_cases hcap : s.funnel.capOk = true
      · rw [if_pos hcap] at h
        replace h := Option.some.inj h
        subst h
        exact set_keeps_other hne hwk
      · rw [if_neg hcap] at h
        exact Option.noConfusion h
    · rename_i e rest
      by_cases hcap : (s.funnel.capOk &&
          (s.funnel.put { value := none, exc_info := some e }).relOk) = true
      · rw [if_pos hcap] at h
        replace h := Option.some.inj h
        subst h
        exact set_keeps_other hne hwk
      · rw [if_neg hcap] at h
        exact Option.noConfusion h

theorem lt_of_getElem? {α : Type} {l : List α} {i : Nat} {a : α}
    (h : l[i]? = some a) : i < l.length := by
  obtain ⟨hl, -⟩ := List.getElem?_eq_some.mp h
  exact hl

theorem pol_step {T E : Type} {s s' : Sys T E} (a : Act) (h : stepFn s a = some s') :
    s'.pol = s.pol := by
  cases a with
  | submit =>
    replace h : stepSubmit s = some s' := h
    unfold stepSubmit at h
    repeat' split at h
    all_goals first
      | exact Option.noConfusion h
      | (replace h := Option.some.inj h; subst h; rfl)
  | coGet =>
    replace h : stepCoGet s = some s' := h
    unfold stepCoGet at h
    repeat' split at h
    all_goals first
      | exact Option.noConfusion h
      | (replace h := Option.some.inj h; subst h; rfl)
  | coSetFlag =>
    replace h : stepCoSetFlag s = some s' := h
    unfold stepCoSetFlag at h
    repeat' split at h
    all_goals first
      | exact Option.noConfusion h
      | (replace h := Option.some.inj h; subst h; rfl)
  | coCancel =>
    replace h : stepCoCancel s = some s' := h
    unfold stepCoCancel at h
    repeat' split at h
    all_goals first
      | exact Option.noConfusion h
      | (replace h := Option.some.inj h; subst h; rfl)
  | coRaise =>
    replace h : stepCoRaise s = some s' := h
    unfold stepCoRaise at h
    repeat' split at h
    all_goals first
      | exact Option.noConfusion h
      | (replace h := Option.some.inj h; subst h; rfl)
  | coClose =>
    replace h : stepCoClose s = some s' := h
    unfold stepCoClose at h
    repeat' split at h
    all_goals first
      | exact Option.noConfusion h
      | (replace h := Option.some.inj h; subst h; rfl)
  | drainEnd =>
    replace h : stepDrainEnd s = some s' := h
    unfold stepDrainEnd at h
    repeat' split at h
    all_goals first
      | exact Option.noConfusion h
      | (replace h := Option.some.inj h; subst h; rfl)
  | wStart i =>
    replace h : stepWStart s i = some s' := h
    unfold stepWStart at h
    repeat' split at h
    all_goals first
      | exact Option.noConfusion h
      | (replace h := Option.some.inj h; subst h; rfl)
  | wCheck i =>
    replace h : stepWCheck s i = some s' := h
    unfold stepWCheck at h
    repeat' split at h
    all_goals first
      | exact Option.noConfusion h
      | (replace h := Option.some.inj h; subst h; rfl)
  | wAdvance i =>
    replace h : stepWAdvance s i = some s' := h
    unfold stepWAdvance at h
    repeat' split at h
    all_goals first
      | exact Option.noConfusion h
      | (replace h := Option.some.inj h; subst h; rfl)

theorem pol_run {T E : Type} :
    ∀ (acts : List Act) (s s' : Sys T E), run s acts = some s' → s'.pol = s.pol := by
  intro acts
  induction acts with
  | nil =>
    intro s s' h
    rw [run_nil] at h
    injection h with h
    subst h
    rfl
  | cons a as ih =>
    intro s s' h
    rw [run_cons] at h
    cases hstep : stepFn s a with
    | none => rw [hstep] at h; exact Option.noConfusion h
    | some s1 =>
      rw [hstep] at h
      rw [ih s1 s' h]
      exact pol_step a hstep

theorem winv_facts {T E : Type} (w : Worker T E) (hw : WInv w) :
    w.regCnt ≤ 1 ∧ w.relCnt ≤ w.regCnt ∧
    (w.st = WState.done → w.relCnt = 1) ∧
    (w.st = WState.cancelled → w.regCnt = 1 ∧ w.relCnt = 0) ∧
    (wTerminalB w.st = false → w.relCnt = 0) := by
  rw [WInv] at hw
  cases hst : w.st <;> rw [hst] at hw
  case unsubmitted its =>
    obtain ⟨h1, h2, -, -⟩ := hw
    exact ⟨by omega, by omega, fun hd => WState.noConfusion hd,
      fun hd => WState.noConfusion hd, fun _ => h2⟩
  case pending its =>
    obtain ⟨h1, h2, -, -⟩ := hw
    exact ⟨by omega, by omega, fun hd => WState.noConfusion hd,
      fun hd => WState.noConfusion hd, fun _ => h2⟩
  case checking its =>
    obtain ⟨h1, h2, -, -⟩ := hw
    exact ⟨by omega, by omega, fun hd => WState.noConfusion hd,
      fun hd => WState.noConfusion hd, fun _ => h2⟩
  case advancing its =>
    obtain ⟨h1, h2, -, -⟩ := hw
    exact ⟨by omega, by omega, fun hd => WState.noConfusion hd,
      fun hd => WState.noConfusion hd, fun _ => h2⟩
  case done =>
    obtain ⟨h1, h2, -, -⟩ := hw
    exact ⟨by omega, by omega, fun _ => h2, fun hd => WState.noConfusion hd,
      by intro ht; simp [wTerminalB] at ht⟩
  case cancelled =>
    obtain ⟨h1, h2, -, -⟩ := hw
    exact ⟨by omega, by omega, fun hd => WState.noConfusion hd,
      fun _ => ⟨h1, h2⟩, fun _ => h2⟩

theorem winv_failPush {T E : Type} (w : Worker T E) (hw : WInv w) :
    w.failPushCnt ≤ 1 := by
  rw [WInv] at hw
  cases hst : w.st <;> rw [hst] at hw <;> obtain ⟨-, -, h3, -⟩ := hw
  case done =>
    rw [h3]
    cases hek : w.exitKind with
    | none => simp
    | some ek => cases ek <;> simp
  all_goals omega

/-- Claim C4, amended: producer_qty always equals registrations minus
releases and never goes negative; each worker is registered exactly once
when submitted and releases exactly once when its loop terminates (by
exhaustion, error, or the stop flag).  The amendment: a worker cancelled
before it ever starts is registered but NEVER releases (its context
manager never runs), instead of being decremented on cancellation as the
claim states. -/
theorem c4_producer_count {T E : Type} (iters : List (List (Step T E)))
    (cap : Option Nat) (pol : OnError) (acts : List Act) (s : Sys T E)
    (h : run (initSys iters cap pol) acts = some s) : C4Prop s := by
  obtain ⟨hW, hQty, -, -, -, -, -, -, -, -, -, -, -, -, -⟩ :=
    sinv_reach iters cap pol acts s h
  refine ⟨hQty, ?_, ?_⟩
  · rw [hQty]
    apply List.sum_nonneg
    intro x hx
    rw [List.mem_map] at hx
    obtain ⟨w, hw, rfl⟩ := hx
    obtain ⟨hb1, hb2, -, -, -⟩ := winv_facts w (hW w hw)
    simp only [wBal]
    omega
  · intro w hw
    exact winv_facts w (hW w hw)

/-- Witness for the amended C4 at a concrete run. -/
theorem c4_producer_count_witness : C4Prop cancelFinal :=
  c4_producer_count cancelIters none OnError.CANCEL cancelTr _ rfl

/-- Counterexample to claim C4 as stated: in the cancellation run the
merged sequence has completed (failed), worker 1 has terminated by being
cancelled before it ever started, yet its registration was never released:
its release count is 0 and producer_qty remains 1, not 0. -/
theorem c4_counterexample :
    run (initSys cancelIters none OnError.CANCEL) cancelTr = some cancelFinal ∧
    terminalCoB cancelFinal.co = true ∧
    (cancelFinal.workers.getD 1 dfltW).st = WState.cancelled ∧
    (cancelFinal.workers.getD 1 dfltW).regCnt = 1 ∧
    (cancelFinal.workers.getD 1 dfltW).relCnt = 0 ∧
    ¬ cancelFinal.funnel.producer_qty = 0 :=
  ⟨rfl, rfl, rfl, rfl, rfl, by decide⟩

/-- Claim C2: under the CANCEL policy (the behaviour of the src code), once
the coordinator pulls the first failure Outcome it pulls nothing further and
its next step sets the shared stop signal; the signal is set exactly from
then on; cancelling a not-yet-started future moves it to cancelled, and a
cancelled future never starts; the failure surfaced to the consumer is
exactly the first failure pulled; and at most one producer failure is
surfaced per merged-sequence lifetime. -/
theorem c2_cancel_policy {T E : Type} (iters : List (List (Step T E)))
    (cap : Option Nat) (acts : List Act) (s : Sys T E)
    (h : run (initSys iters cap OnError.CANCEL) acts = some s) : C2Prop s := by
  obtain ⟨hW, hQty, hFlagC, hFlagF, hRecC, hRecF, hPhaseF, hNatF, hFirst, hFirstC,
    hSurf, hEoiDrain, hEoiFailF, hTerm, hCancelled⟩ :=
    sinv_reach iters cap OnError.CANCEL acts s h
  have hpol : s.pol = OnError.CANCEL := by
    rw [pol_run acts _ s h]
    rfl
  refine ⟨?_, hFlagC hpol, ?_, ?_, ?_, ?_, ?_, ?_⟩
  · intro e hco
    constructor
    · show stepCoGet s = none
      simp [stepCoGet, hco]
    · refine ⟨{ s with flag := true, co := CoState.cancelling e 0 }, ?_, rfl, rfl⟩
      show stepCoSetFlag s = _
      simp [stepCoSetFlag, hco]
  · intro e i w hco hwk its hst
    have hlen : i < s.workers.length := lt_of_getElem? hwk
    refine ⟨{ s with workers := (s.workers.set i { w with st := WState.cancelled }), co := CoState.cancelling e (i + 1) }, ?_, ?_⟩
    · show stepCoCancel s = _
      simp [stepCoCancel, hco, hwk, hst]
    · show (s.workers.set i { w with st := WState.cancelled })[i]? = _
      rw [List.getElem?_set_self hlen]
  · intro i w a s' hwk hc hstep
    exact cancelled_stays a hwk hc hstep
  · intro e he
    exact hFirst e (by rw [he]; rfl)
  · intro e he
    show stepCoGet s = none
    cases hco : s.co <;> rw [hco] at he <;> simp [coFail] at he <;>
      simp [stepCoGet, hco]
  · rw [hSurf]
    by_cases hb : isFailedB s.co = true <;> simp [hb]
  · intro h1
    rw [hSurf] at h1
    by_cases hb : isFailedB s.co = true
    · exact hb
    · simp [hb] at h1

/-- Witness for C2 at the concrete cancellation run. -/
theorem c2_cancel_policy_witness : C2Prop cancelFinal :=
  c2_cancel_policy cancelIters none cancelTr _ rfl

/-- Claim C3, amended: closing or abandoning the merged sequence early does
NOT set the stop signal (no implicit CANCEL-style teardown exists in the
code); instead every worker - running or not yet started - continues to its
natural completion, and control returns to the consumer (closedDone) only
after every worker has fully terminated and released its registration,
bringing producer_qty back to 0. -/
theorem c3_early_close {T E : Type} (iters : List (List (Step T E)))
    (cap : Option Nat) (pol : OnError) (acts : List Act) (s : Sys T E)
    (h : run (initSys iters cap pol) acts = some s) : C3Prop s := by
  obtain ⟨hW, hQty, hFlagC, hFlagF, hRecC, hRecF, hPhaseF, hNatF, hFirst, hFirstC,
    hSurf, hEoiDrain, hEoiFailF, hTerm, hCancelled⟩ :=
    sinv_reach iters cap pol acts s h
  have hflagno : closePhaseB s.co = true → s.flag = false := by
    intro hcp
    cases hpol : s.pol with
    | CANCEL =>
      rw [hFlagC hpol]
      cases hco : s.co <;> rw [hco] at hcp <;> simp [closePhaseB] at hcp <;> rfl
    | FINISH_CURRENT => exact hFlagF hpol
  refine ⟨hflagno, ?_⟩
  intro hco
  have hdone : ∀ w ∈ s.workers, w.st = WState.done := by
    intro w hw
    have hall := hTerm (by rw [hco]; rfl)
    rw [allStopped, List.all_eq_true] at hall
    have ht := hall w hw
    cases hst : w.st
    case done => rfl
    case cancelled =>
      exact absurd (show coFail s.co = (none : Option E) by rw [hco]; rfl)
        (hCancelled w hw hst)
    all_goals (rw [hst] at ht; simp [wTerminalB] at ht)
  refine ⟨fun w hw => ⟨hdone w hw, ?_⟩, ?_⟩
  · exact (winv_facts w (hW w hw)).2.2.1 (hdone w hw)
  · rw [hQty]
    apply List.sum_eq_zero
    intro x hx
    rw [List.mem_map] at hx
    obtain ⟨w, hw, rfl⟩ := hx
    obtain ⟨hb1, hb2, hb3, -, -⟩ := winv_facts w (hW w hw)
    have hrel := hb3 (hdone w hw)
    simp only [wBal]
    omega

/-- Witness for the amended C3 at the concrete early-close run. -/
theorem c3_early_close_witness : C3Prop closeFinal :=
  c3_early_close closeIters none OnError.CANCEL closeTr _ rfl

/-- Counterexample to claim C3 as stated: after the consumer closes the
merged sequence early (state closeMid), the stop signal is NOT set, and the
worker's very next flag test sends it into a NEW advance - contradicting
the claim that the stop signal is set so that no worker starts a new
advance. -/
theorem c3_counterexample :
    run (initSys closeIters none OnError.CANCEL) closePre = some closeMid ∧
    closeMid.co = CoState.closing ∧
    closeMid.flag = false ∧
    (stepFn closeMid (Act.wCheck 0)).isSome = true ∧
    (((stepFn closeMid (Act.wCheck 0)).getD dfltSys).workers.getD 0 dfltW).st =
      WState.advancing [Step.yieldv 6] :=
  ⟨rfl, rfl, rfl, rfl, rfl⟩

/-- Claim C1 (FINISH_CURRENT, modelled from the spec since the on_error
parameter is absent from src): a failure Outcome never sets the stop
signal; no worker is cancelled or stopped by the flag, and when the merged
sequence completes every worker has run to its own natural end; only the
first failure pulled is recorded (subsequent ones are discarded); a
success Outcome is still yielded after a failure was recorded; the
recorded failure is surfaced only after EndOfInput, equals the first
failure pulled, and at most one failure is surfaced. -/
theorem c1_finish_current {T E : Type} (iters : List (List (Step T E)))
    (cap : Option Nat) (acts : List Act) (s : Sys T E)
    (h : run (initSys iters cap OnError.FINISH_CURRENT) acts = some s) :
    C1Prop s := by
  obtain ⟨hW, hQty, hFlagC, hFlagF, hRecC, hRecF, hPhaseF, hNatF, hFirst, hFirstC,
    hSurf, hEoiDrain, hEoiFailF, hTerm, hCancelled⟩ :=
    sinv_reach iters cap OnError.FINISH_CURRENT acts s h
  have hpol : s.pol = OnError.FINISH_CURRENT := by
    rw [pol_run acts _ s h]
    rfl
  refine ⟨hFlagF hpol, hNatF hpol, ?_, hRecF hpol, ?_, ?_, ?_, ?_⟩
  · intro ht w hw
    have hall := hTerm ht
    rw [allStopped, List.all_eq_true] at hall
    have hx := hall w hw
    cases hst : w.st
    case done => rfl
    case cancelled => exact absurd hst (hNatF hpol w hw).1
    all_goals (rw [hst] at hx; simp [wTerminalB] at hx)
  · intro r rest s' hco hq hexc hstep
    replace hstep : stepCoGet s = some s' := hstep
    have hget : s.funnel.get = some (some r, { s.funnel with queue := rest }) := by
      unfold FunnelQueue.get
      rw [hq]
    simp only [stepCoGet, hco, hget, hexc, Option.some.injEq] at hstep
    rw [← hstep]
  · intro e r rest s' hco hq hexc hstep
    replace hstep : stepCoGet s = some s' := hstep
    have hget : s.funnel.get = some (some r, { s.funnel with queue := rest }) := by
      unfold FunnelQueue.get
      rw [hq]
    simp only [stepCoGet, hco, hget, hexc, hpol, finishReact,
      Option.some.injEq] at hstep
    rw [← hstep]
    exact ⟨hFlagF hpol, rfl, rfl, rfl⟩
  · intro e he
    exact ⟨hEoiFailF hpol e he, hFirst e (by rw [he]; rfl)⟩
  · rw [hSurf]
    by_cases hb : isFailedB s.co = true <;> simp [hb]

/-- Witness for C1 at the concrete FINISH_CURRENT run. -/
theorem c1_finish_current_witness : C1Prop finishFinal :=
  c1_finish_current finishIters none finishTr _ rfl

theorem itemsOf_closeOne {X : Type} (q : FunnelQueue X) :
    itemsOf q.closeOne.queue = itemsOf q.queue := by
  unfold FunnelQueue.closeOne
  by_cases hz : q.producer_qty - 1 = 0
  · rw [if_pos hz]
    show itemsOf (q.queue ++ [FItem.sentinel]) = _
    rw [itemsOf_append]
    simp [itemsOf]
  · rw [if_neg hz]

theorem itemsOf_put {X : Type} (q : FunnelQueue X) (v : X) :
    itemsOf (q.put v).queue = itemsOf q.queue ++ [v] := by
  show itemsOf (q.queue ++ [FItem.item v]) = _
  rw [itemsOf_append]
  rfl

/-- Claim C7: the worker loop tests the stop signal before every advance
(a worker only enters the advancing position from the flag test, with the
flag unset); an exhausted source terminates its worker pushing no Result
into the funnel; a raising advance pushes exactly one failure Result and
terminates the worker (and over any run each worker pushes at most one
failure Result); a produced value pushes one success Result and the loop
continues with the next flag test. -/
theorem c7_worker_loop {T E : Type} (pol : OnError) (iters : List (List (Step T E)))
    (cap : Option Nat) (acts : List Act) (a : Act) (s s' : Sys T E)
    (h : run (initSys iters cap pol) acts = some s)
    (h2 : stepFn s a = some s') : C7Prop s a s' := by
  have hs' : SInv s' := sinv_step a (sinv_reach iters cap pol acts s h) h2
  refine ⟨?_, ?_, ?_⟩
  · intro w hw
    exact winv_failPush w (hs'.hW w hw)
  · intro i w w' its ha hwk hw' hst'
    subst ha
    replace h2 : stepWCheck s i = some s' := h2
    unfold stepWCheck at h2
    split at h2 <;> try exact Option.noConfusion h2
    rename_i w0 hwk0
    rw [hwk] at hwk0
    injection hwk0 with hww
    subst hww
    split at h2 <;> try exact Option.noConfusion h2
    rename_i its0 hst0
    have hlen : i < s.workers.length := lt_of_getElem? hwk
    by_cases hfl : s.flag = true
    · rw [if_pos hfl] at h2
      by_cases hrel : s.funnel.relOk = true
      · rw [if_pos hrel] at h2
        replace h2 := Option.some.inj h2
        subst h2
        rw [List.getElem?_set_self hlen] at hw'
        injection hw' with hww'
        subst hww'
        simp at hst'
      · rw [if_neg hrel] at h2
        exact Option.noConfusion h2
    · rw [if_neg hfl] at h2
      replace h2 := Option.some.inj h2
      subst h2
      rw [List.getElem?_set_self hlen] at hw'
      injection hw' with hww'
      subst hww'
      replace hst' : WState.advancing its0 = WState.advancing its := hst'
      injection hst' with hits
      subst hits
      simp at hfl
      exact ⟨hfl, hst0⟩
  · intro i w w' ha hwk hw'
    subst ha
    replace h2 : stepWAdvance s i = some s' := h2
    unfold stepWAdvance at h2
    split at h2 <;> try exact Option.noConfusion h2
    rename_i w0 hwk0
    rw [hwk] at hwk0
    injection hwk0 with hww
    subst hww
    split at h2 <;> try exact Option.noConfusion h2
    rename_i its0 hst0
    have hlen : i < s.workers.length := lt_of_getElem? hwk
    split at h2
    · by_cases hrel : s.funnel.relOk = true
      · rw [if_pos hrel] at h2
        replace h2 := Option.some.inj h2
        subst h2
        rw [List.getElem?_set_self hlen] at hw'
        injection hw' with hww'
        subst hww'
        refine ⟨?_, ?_, ?_⟩
        · intro _
          exact ⟨itemsOf_closeOne s.funnel, rfl, rfl⟩
        · intro e rest hra
          rw [hst0] at hra
          injection hra with hx
          exact List.noConfusion hx
        · intro v rest hv
          rw [hst0] at hv
          injection hv with hx
          exact List.noConfusion hx
      · rw [if_neg hrel] at h2
        exact Option.noConfusion h2
    · rename_i v rest
      by_cases hcap : s.funnel.capOk = true
      · rw [if_pos hcap] at h2
        replace h2 := Option.some.inj h2
        subst h2
        rw [List.getElem?_set_self hlen] at hw'
        injection hw' with hww'
        subst hww'
        refine ⟨?_, ?_, ?_⟩
        · intro hnil
          rw [hst0] at hnil
          injection hnil with hx
          exact List.noConfusion hx
        · intro e rest' hra
          rw [hst0] at hra
          injection hra with hx
          injection hx with hhead htail
          exact Step.noConfusion hhead
        · intro v' rest' hv
          rw [hst0] at hv
          injection hv with hx
          injection hx with hhead htail
          injection hhead with hveq
          subst hveq
          subst htail
          exact ⟨itemsOf_put s.funnel (valueOf v), rfl, rfl⟩
      · rw [if_neg hcap] at h2
        exact Option.noConfusion h2
    · rename_i e rest
      by_cases hcap : (s.funnel.capOk &&
          (s.funnel.put { value := none, exc_info := some e }).relOk) = true
      · rw [if_pos hcap] at h2
        replace h2 := Option.some.inj h2
        subst h2
        rw [List.getElem?_set_self hlen] at hw'
        injection hw' with hww'
        subst hww'
        refine ⟨?_, ?_, ?_⟩
        · intro hnil
          rw [hst0] at hnil
          injection hnil with hx
          exact List.noConfusion hx
        · intro e' rest' hra
          rw [hst0] at hra
          injection hra with hx
          injection hx with hhead htail
          injection hhead with heq
          subst heq
          refine ⟨?_, rfl, rfl⟩
          rw [itemsOf_closeOne, itemsOf_put]
          rfl
        · intro v' rest' hv
          rw [hst0] at hv
          injection hv with hx
          injection hx with hhead htail
          exact Step.noConfusion hhead
      · rw [if_neg hcap] at h2
        exact Option.noConfusion h2

/-- Witness for C7 at a concrete advancing step. -/
theorem c7_worker_loop_witness :
    C7Prop c7Mid (Act.wAdvance 0) ((stepFn c7Mid (Act.wAdvance 0)).getD dfltSys) :=
  c7_worker_loop OnError.CANCEL closeIters none c7Pre (Act.wAdvance 0) c7Mid _ rfl rfl

/-- Claim C6 names a real bug in the code: with raceIters = [[], [yield 42]]
worker 0 can run to completion between the two pool.submit calls (schedule
racePre).  At that point the completion sentinel is already enqueued while
worker 1 has not been registered (regCnt = 0, still unsubmitted).
Completing the schedule (raceTr), the coordinator pulls EndOfInput first
and finishes with no outputs while worker 1's value 42 sits unconsumed in
the queue: a fast-finishing first batch triggered the completion signal
before the remaining worker registered, exactly what the claim (and the
comment in the code above the futures list comprehension) says cannot
happen. -/
theorem c6_registration_race :
    run (initSys raceIters none OnError.CANCEL) racePre = some raceMid ∧
    raceMid.funnel.sentinelCnt = 1 ∧
    countS raceMid.funnel.queue = 1 ∧
    (raceMid.workers.getD 1 dfltW).regCnt = 0 ∧
    run (initSys raceIters none OnError.CANCEL) raceTr = some raceFinal ∧
    raceFinal.co = CoState.finished ∧
    raceFinal.outputs = [] ∧
    itemsOf raceFinal.funnel.queue = [valueOf 42] :=
  ⟨rfl, rfl, rfl, rfl, rfl, rfl, rfl, rfl⟩

/-- Counterexample to claim C5 as stated: in the run of
interleave(raceIters) under the raceTr schedule - a schedule the real pool
is free to produce - the completion marker is enqueued twice during a
single funnel lifetime, because worker 1 registers after the count has
already dropped to 0. -/
theorem c5_counterexample :
    run (initSys raceIters none OnError.CANCEL) raceTr = some raceFinal ∧
    raceFinal.funnel.sentinelCnt = 2 ∧
    ¬ raceFinal.funnel.sentinelCnt ≤ 1 := by
  refine ⟨rfl, rfl, by decide⟩

end Interleave
